import Mathlib

/-!
# Verification of the rib command-execution and side-channel subsystem

Shallow embedding of the rib build tool's core (fileop.go, util.go and the
main command driver) as executable Lean definitions, together with theorems
settling the specification claims about it.

Conventions:
* Byte streams (the side-channel wire data) are modelled as `List Char`
  restricted in practice to byte-valued characters; `'\x00'` is the NUL
  record delimiter, `'\x1f'` the unit separator.
* Go library primitives with OS effects (`filepath.Join`, `filepath.Rel`,
  `exec.LookPath`, `filepath.Base`, `ioutil.TempDir`) are not repository
  code; they are abstracted as oracle parameters (`Paths`, `RunOracle`),
  and theorems that need one of their guarantees take it as a hypothesis.
* Fallible steps return `Except`/`Option`; `none` from a decoder models a
  Go runtime panic (index out of range).
-/

namespace Rib

/-- The NUL byte (record delimiter of the side channel). -/
def nulC : Char := Char.ofNat 0

/-- The unit-separator byte 0x1F (field delimiter of the side channel). -/
def usC : Char := Char.ofNat 31

/-- Split a list at the first occurrence of `sep`: returns the part before
the separator and the part after it, or `none` when `sep` does not occur.
This models `bytes.IndexByte` together with the slicing done at the found
index. -/
def splitOnce (sep : Char) : List Char → Option (List Char × List Char)
  | [] => none
  | c :: t =>
    if c = sep then some ([], t)
    else (splitOnce sep t).map (fun p => (c :: p.1, p.2))

@[simp] theorem splitOnce_nil (sep : Char) : splitOnce sep [] = none := rfl

theorem splitOnce_cons_self (sep : Char) (t : List Char) :
    splitOnce sep (sep :: t) = some ([], t) := by
  simp [splitOnce]

theorem splitOnce_cons_ne (sep c : Char) (t : List Char) (h : c ≠ sep) :
    splitOnce sep (c :: t) = (splitOnce sep t).map (fun p => (c :: p.1, p.2)) := by
  simp [splitOnce, h]

/-- If `sep` does not occur in `pre`, then splitting `pre ++ sep :: t`
finds exactly `(pre, t)`. -/
theorem splitOnce_append (sep : Char) (pre t : List Char) (h : sep ∉ pre) :
    splitOnce sep (pre ++ sep :: t) = some (pre, t) := by
  induction pre with
  | nil => simp [splitOnce]
  | cons c cs ih =>
    have hc : c ≠ sep := fun hce => h (hce ▸ List.mem_cons_self c cs)
    have hcs : sep ∉ cs := fun hm => h (List.mem_cons_of_mem c hm)
    simp [splitOnce, hc, ih hcs]

/-- `splitOnce` finds nothing exactly when the separator is absent. -/
theorem splitOnce_eq_none_iff (sep : Char) (l : List Char) :
    splitOnce sep l = none ↔ sep ∉ l := by
  induction l with
  | nil => simp
  | cons c cs ih =>
    by_cases hc : c = sep
    · subst hc
      rw [splitOnce_cons_self]
      simp
    · rw [splitOnce_cons_ne sep c cs hc]
      cases hsp : splitOnce sep cs with
      | none =>
        have hmem : sep ∉ cs := ih.mp hsp
        constructor
        · intro _ hin
          rcases List.mem_cons.mp hin with h | h
          · exact hc h.symm
          · exact hmem h
        · intro _; rfl
      | some p =>
        constructor
        · intro h; exact absurd h (by simp)
        · intro h
          have : sep ∉ cs := fun hm => h (List.mem_cons_of_mem c hm)
          rw [ih.mpr this] at hsp
          exact absurd hsp (by simp)

theorem splitOnce_some_parts (sep : Char) (l pre t : List Char)
    (h : splitOnce sep l = some (pre, t)) :
    l = pre ++ sep :: t ∧ sep ∉ pre := by
  induction l generalizing pre with
  | nil => simp [splitOnce] at h
  | cons c cs ih =>
    by_cases hc : c = sep
    · subst hc
      rw [splitOnce_cons_self] at h
      obtain ⟨h1, h2⟩ := Prod.mk.injEq .. ▸ Option.some.injEq .. ▸ h
      simp at h
      obtain ⟨h1, h2⟩ := h
      subst h1; subst h2; simp
    · rw [splitOnce_cons_ne sep c cs hc] at h
      cases hsp : splitOnce sep cs with
      | none => rw [hsp] at h; simp at h
      | some p =>
        rw [hsp] at h
        simp at h
        obtain ⟨h1, h2⟩ := h
        obtain ⟨hl, hm⟩ := ih p.1 (by rw [hsp, ← h2])
        subst h1
        constructor
        · simp [hl, ← h2]
        · simp [List.mem_cons, hm]
          exact fun he => hc he.symm

/-- Length bookkeeping for `splitOnce`. -/
theorem splitOnce_length (sep : Char) (l pre t : List Char)
    (h : splitOnce sep l = some (pre, t)) :
    l.length = pre.length + 1 + t.length := by
  obtain ⟨hl, _⟩ := splitOnce_some_parts sep l pre t h
  subst hl
  simp
  omega

/-! ## scanNull and the Scanner loop (fileop.go, `scanNull` / `readPipe` driver) -/

/-- Translation of `scanNull(data, atEOF)` from fileop.go.  Returns the
number of bytes to advance and the token (if any); `(0, none)` with
`atEOF = false` means "request more data", with `atEOF = true` it means
end of the token stream. -/
def scanNull (data : List Char) (atEOF : Bool) : Nat × Option (List Char) :=
  if atEOF ∧ data = [] then (0, none)
  else
    match splitOnce nulC data with
    | some (pre, _) => (pre.length + 1, some pre)
    | none => if atEOF then (data.length, some data) else (0, none)

theorem scanNull_some_bounds (data : List Char) (adv : Nat) (tok : List Char)
    (h : scanNull data true = (adv, some tok)) :
    0 < adv ∧ adv ≤ data.length := by
  unfold scanNull at h
  by_cases hd : data = []
  · simp [hd] at h
  · simp only [hd, and_false, if_false] at h
    cases hsp : splitOnce nulC data with
    | some p =>
      rw [hsp] at h
      obtain ⟨pre, t⟩ := p
      have hlen := splitOnce_length nulC data pre t hsp
      simp at h
      omega
    | none =>
      rw [hsp] at h
      simp at h
      have : 0 < data.length := List.length_pos.mpr hd
      omega

/-- The `bufio.Scanner` token loop over a closed stream whose full contents
are `data`: repeatedly apply `scanNull` (with `atEOF = true`, which for this
split function yields the same token stream as any incremental chunking,
since `scanNull` only acts on a found NUL or at end of stream) and collect
the tokens. -/
def scanTokens (data : List Char) : List (List Char) :=
  match h : scanNull data true with
  | (_, none) => []
  | (adv, some tok) => tok :: scanTokens (data.drop adv)
termination_by data.length
decreasing_by
  have hb := scanNull_some_bounds data adv tok h
  simp only [List.length_drop]
  omega

/-- Spec-side function: split a byte sequence on NUL into segments
(n NULs yield n+1 segments, empties preserved). -/
def splitNul : List Char → List (List Char)
  | [] => [[]]
  | c :: t =>
    if c = nulC then [] :: splitNul t
    else
      let s := splitNul t
      (c :: s.headI) :: s.tail

theorem splitNul_ne_nil (l : List Char) : splitNul l ≠ [] := by
  cases l with
  | nil => simp [splitNul]
  | cons c t =>
    unfold splitNul
    by_cases hc : c = nulC <;> simp [hc]

/-- Spec-side function: drop a single trailing empty segment, if present. -/
def dropTrailingEmpty : List (List Char) → List (List Char)
  | [] => []
  | [x] => if x = [] then [] else [x]
  | x :: y :: rest => x :: dropTrailingEmpty (y :: rest)

theorem dropTrailingEmpty_cons (a : List Char) (s : List (List Char)) (hs : s ≠ []) :
    dropTrailingEmpty (a :: s) = a :: dropTrailingEmpty s := by
  cases s with
  | nil => exact absurd rfl hs
  | cons b s' => rfl

theorem splitNul_of_none (l : List Char) (h : splitOnce nulC l = none) :
    splitNul l = [l] := by
  induction l with
  | nil => simp [splitNul]
  | cons c t ih =>
    have hc : c ≠ nulC := by
      intro hce
      subst hce
      rw [splitOnce_cons_self] at h
      exact absurd h (by simp)
    rw [splitOnce_cons_ne nulC c t hc] at h
    have ht : splitOnce nulC t = none := by
      cases hsp : splitOnce nulC t with
      | none => rfl
      | some p => rw [hsp] at h; simp at h
    unfold splitNul
    simp only [hc, if_false]
    rw [ih ht]
    simp

theorem splitNul_of_some (l pre t : List Char) (h : splitOnce nulC l = some (pre, t)) :
    splitNul l = pre :: splitNul t := by
  obtain ⟨hl, hmem⟩ := splitOnce_some_parts nulC l pre t h
  subst hl
  clear h
  induction pre with
  | nil => simp [splitNul]
  | cons c cs ih =>
    have hc : c ≠ nulC := fun hce => hmem (hce ▸ List.mem_cons_self c cs)
    have hcs : nulC ∉ cs := fun hm => hmem (List.mem_cons_of_mem c hm)
    show splitNul (c :: (cs ++ nulC :: t)) = (c :: cs) :: splitNul t
    unfold splitNul
    simp only [hc, if_false]
    rw [ih hcs]
    simp
    cases t <;> simp [splitNul]

theorem scanNull_nil_eof : scanNull [] true = (0, none) := by
  simp [scanNull]

theorem scanNull_some_split (d pre t : List Char) (h : splitOnce nulC d = some (pre, t)) :
    scanNull d true = (pre.length + 1, some pre) := by
  have hd : d ≠ [] := by intro h0; subst h0; simp at h
  unfold scanNull
  simp [hd, h]

theorem scanNull_none_split (d : List Char) (hd : d ≠ []) (h : splitOnce nulC d = none) :
    scanNull d true = (d.length, some d) := by
  unfold scanNull
  simp [hd, h]

theorem scanTokens_of_none (d : List Char) (fst : Nat)
    (h : scanNull d true = (fst, none)) : scanTokens d = [] := by
  unfold scanTokens
  split
  · rfl
  · next adv tok heq => rw [h] at heq; simp at heq

theorem scanTokens_of_some (d : List Char) (adv : Nat) (tok : List Char)
    (h : scanNull d true = (adv, some tok)) :
    scanTokens d = tok :: scanTokens (d.drop adv) := by
  conv_lhs => unfold scanTokens
  split
  · next fst heq => rw [h] at heq; simp at heq
  · next a t heq =>
    rw [h] at heq
    simp at heq
    rw [heq.1, heq.2]

theorem drop_after_sep (pre t : List Char) :
    (pre ++ nulC :: t).drop (pre.length + 1) = t := by
  have h1 : pre ++ nulC :: t = (pre ++ [nulC]) ++ t := by simp
  have h2 : pre.length + 1 = (pre ++ [nulC]).length := by simp
  rw [h1, h2, List.drop_left]

/-- The Scanner token stream over a full closed input equals split-on-NUL
with a single trailing empty segment dropped. -/
theorem scanTokens_eq_splitNul (data : List Char) :
    scanTokens data = dropTrailingEmpty (splitNul data) := by
  induction data using scanTokens.induct with
  | case1 d fst h =>
    rw [scanTokens_of_none d fst h]
    have hd : d = [] := by
      by_contra hd
      unfold scanNull at h
      simp only [hd, and_false, if_false] at h
      cases hsp : splitOnce nulC d with
      | some p => obtain ⟨pre, t⟩ := p; rw [hsp] at h; simp at h
      | none => rw [hsp] at h; simp at h
    subst hd
    simp [splitNul, dropTrailingEmpty]
  | case2 d adv tok h ih =>
    have hd : d ≠ [] := by
      intro h0; subst h0; rw [scanNull_nil_eof] at h; simp at h
    rw [scanTokens_of_some d adv tok h]
    cases hsp : splitOnce nulC d with
    | some p =>
      obtain ⟨pre, t⟩ := p
      have hsc := scanNull_some_split d pre t hsp
      rw [h] at hsc
      simp at hsc
      obtain ⟨hadv, htok⟩ := hsc
      have hparts := (splitOnce_some_parts nulC d pre t hsp).1
      have hdrop : d.drop adv = t := by rw [hadv, hparts]; exact drop_after_sep pre t
      rw [htok, hdrop, splitNul_of_some d pre t hsp,
        dropTrailingEmpty_cons _ _ (splitNul_ne_nil t)]
      rw [hdrop] at ih
      rw [ih]
    | none =>
      have hsc := scanNull_none_split d hd hsp
      rw [h] at hsc
      simp at hsc
      obtain ⟨hadv, htok⟩ := hsc
      have hdrop : d.drop adv = [] := by rw [hadv]; simp
      rw [htok, hdrop, scanTokens_of_none [] 0 scanNull_nil_eof,
        splitNul_of_none d hsp]
      simp [dropTrailingEmpty, hd]

/-! ## The side-channel record decoder (fileop.go, `readPipe` / `ChildData`) -/

/-- Translation of Go's `bytes.SplitN(s, sep, n)` (library collaborator of
`readPipe`): split around each instance of `sep` into at most `n` parts, the
last part holding the unsplit remainder. -/
def goSplitN (sep : Char) (n : Nat) (s : List Char) : List (List Char) :=
  if n = 0 then []
  else if n = 1 then [s]
  else
    match splitOnce sep s with
    | none => [s]
    | some (pre, t) => pre :: goSplitN sep (n - 1) t
termination_by n
decreasing_by omega

theorem goSplitN_one (sep : Char) (s : List Char) : goSplitN sep 1 s = [s] := by
  unfold goSplitN
  simp

theorem goSplitN_step (sep : Char) (n : Nat) (s : List Char) (h : 2 ≤ n) :
    goSplitN sep n s =
      match splitOnce sep s with
      | none => [s]
      | some (pre, t) => pre :: goSplitN sep (n - 1) t := by
  conv_lhs => unfold goSplitN
  rw [if_neg (by omega), if_neg (by omega)]

/-- Commands available to child processes (fileop.go `ChildData`). -/
structure ChildData where
  category : String
  key : String
  value : String
deriving DecidableEq, Repr

/-- The per-record body of `readPipe`: split the chunk into at most three
fields on the unit separator and build the `ChildData` handed to
`childDataHandler`.  The Go code indexes `r[0]`, `r[1]`, `r[2]` without a
length check, so a chunk with fewer than three fields makes it panic with an
index-out-of-range runtime error; `none` models that panic. -/
def decodeChunk (chunk : List Char) : Option ChildData :=
  match goSplitN usC 3 chunk with
  | [r0, r1, r2] => some ⟨⟨r0⟩, ⟨r1⟩, ⟨r2⟩⟩
  | _ => none

theorem goSplitN_three_of_two_seps (c k rest : List Char)
    (hc : usC ∉ c) (hk : usC ∉ k) :
    goSplitN usC 3 (c ++ usC :: (k ++ usC :: rest)) = [c, k, rest] := by
  rw [goSplitN_step usC 3 _ (by omega), splitOnce_append usC c (k ++ usC :: rest) hc]
  show c :: goSplitN usC 2 (k ++ usC :: rest) = [c, k, rest]
  rw [goSplitN_step usC 2 _ (by omega), splitOnce_append usC k rest hk]
  show c :: k :: goSplitN usC 1 rest = [c, k, rest]
  rw [goSplitN_one]

theorem goSplitN_of_no_sep (s : List Char) (h : usC ∉ s) :
    goSplitN usC 3 s = [s] := by
  rw [goSplitN_step usC 3 s (by omega), (splitOnce_eq_none_iff usC s).mpr h]

theorem goSplitN_of_one_sep (a b : List Char) (ha : usC ∉ a) (hb : usC ∉ b) :
    goSplitN usC 3 (a ++ usC :: b) = [a, b] := by
  rw [goSplitN_step usC 3 _ (by omega), splitOnce_append usC a b ha]
  show a :: goSplitN usC 2 b = [a, b]
  rw [goSplitN_step usC 2 b (by omega), (splitOnce_eq_none_iff usC b).mpr hb]

/-! ## The persistent environment store (`cmdPersistEnv` / `handleChildData`) -/

/-- The process-wide map of persistent environment variables
(`var cmdPersistEnv map[string]string`), modelled as an association list
with at most one entry per key. -/
abbrev EnvMap := List (String × String)

/-- Map lookup. -/
def envGet (m : EnvMap) (k : String) : Option String :=
  (m.find? (fun e => e.1 == k)).map (fun e => e.2)

/-- Map assignment `m[k] = v` (insert or overwrite). -/
def envSet (m : EnvMap) (k v : String) : EnvMap :=
  m.filter (fun e => e.1 != k) ++ [(k, v)]

/-- Map removal `delete(m, k)`. -/
def envDel (m : EnvMap) (k : String) : EnvMap :=
  m.filter (fun e => e.1 != k)

/-- Translation of `handleChildData` from the command driver: `setenv`
inserts/overwrites, `unsetenv` removes, anything else is a no-op.  The Go
function mutates the global `cmdPersistEnv`; here the store is passed and
returned explicitly. -/
def handleChildData (cd : ChildData) (m : EnvMap) : EnvMap :=
  if cd.category = "setenv" then envSet m cd.key cd.value
  else if cd.category = "unsetenv" then envDel m cd.key
  else m

theorem find?_append_of_none {α : Type} (p : α → Bool) (l₁ l₂ : List α)
    (h : l₁.find? p = none) : (l₁ ++ l₂).find? p = l₂.find? p := by
  induction l₁ with
  | nil => rfl
  | cons a t ih =>
    rw [List.cons_append]
    by_cases hp : p a = true
    · rw [List.find?_cons_of_pos _ hp] at h; exact absurd h (by simp)
    · have hp' : p a = false := Bool.eq_false_iff.mpr hp
      rw [List.find?_cons_of_neg _ (by simp [hp'])] at h
      rw [List.find?_cons_of_neg _ (by simp [hp'])]
      exact ih h

theorem find?_append_of_some {α : Type} (p : α → Bool) (l₁ l₂ : List α) (e : α)
    (h : l₁.find? p = some e) : (l₁ ++ l₂).find? p = some e := by
  induction l₁ with
  | nil => simp at h
  | cons a t ih =>
    rw [List.cons_append]
    by_cases hp : p a = true
    · rw [List.find?_cons_of_pos _ hp] at h
      rw [List.find?_cons_of_pos _ hp]
      exact h
    · have hp' : p a = false := Bool.eq_false_iff.mpr hp
      rw [List.find?_cons_of_neg _ (by simp [hp'])] at h
      rw [List.find?_cons_of_neg _ (by simp [hp'])]
      exact ih h

theorem filter_ne_find?_none (m : EnvMap) (k : String) :
    (m.filter (fun e => e.1 != k)).find? (fun e => e.1 == k) = none := by
  induction m with
  | nil => rfl
  | cons a t ih =>
    by_cases hak : a.1 = k
    · rw [List.filter_cons, if_neg (by simp [hak])]
      exact ih
    · rw [List.filter_cons, if_pos (by simp [hak])]
      rw [List.find?_cons_of_neg _ (by simp [hak])]
      exact ih

theorem filter_ne_find?_other (m : EnvMap) (k k' : String) (hkk : k' ≠ k) :
    (m.filter (fun e => e.1 != k)).find? (fun e => e.1 == k') =
      m.find? (fun e => e.1 == k') := by
  induction m with
  | nil => rfl
  | cons a t ih =>
    by_cases hak : a.1 = k
    · rw [List.filter_cons, if_neg (by simp [hak])]
      rw [List.find?_cons_of_neg _ (by simp [hak]; exact fun h => hkk h.symm)]
      exact ih
    · rw [List.filter_cons, if_pos (by simp [hak])]
      by_cases hak' : a.1 = k'
      · rw [List.find?_cons_of_pos _ (by simp [hak']),
          List.find?_cons_of_pos _ (by simp [hak'])]
      · rw [List.find?_cons_of_neg _ (by simp [hak']),
          List.find?_cons_of_neg _ (by simp [hak'])]
        exact ih

theorem envGet_set_self (m : EnvMap) (k v : String) :
    envGet (envSet m k v) k = some v := by
  unfold envGet envSet
  rw [find?_append_of_none _ _ _ (filter_ne_find?_none m k)]
  simp [List.find?_cons]

theorem envGet_set_other (m : EnvMap) (k v k' : String) (h : k' ≠ k) :
    envGet (envSet m k v) k' = envGet m k' := by
  unfold envGet envSet
  cases hf : (m.filter (fun e => e.1 != k)).find? (fun e => e.1 == k') with
  | none =>
    rw [find?_append_of_none _ _ _ hf]
    rw [filter_ne_find?_other m k k' h] at hf
    rw [hf]
    have : ((k, v).1 == k') = false := by
      simp only [beq_eq_false_iff_ne]
      exact fun he => h he.symm
    simp [List.find?_cons, this]
  | some e =>
    rw [find?_append_of_some _ _ _ _ hf]
    rw [filter_ne_find?_other m k k' h] at hf
    rw [hf]

theorem envGet_del_self (m : EnvMap) (k : String) :
    envGet (envDel m k) k = none := by
  unfold envGet envDel
  rw [filter_ne_find?_none m k]
  rfl

theorem envGet_del_other (m : EnvMap) (k k' : String) (h : k' ≠ k) :
    envGet (envDel m k) k' = envGet m k' := by
  unfold envGet envDel
  rw [filter_ne_find?_other m k k' h]

/-! ## Command environment flags (fileop.go, `1 << iota` constants) -/

def Einteractive : Nat := 1
def Efakeroot : Nat := 2
def Efakechroot : Nat := 4
def Echroot : Nat := 8
def Edirectexec : Nat := 16
def Eignoreexit : Nat := 32
def Eskip : Nat := 64

/-- The test `ce.flag & E... != 0` used throughout the source. -/
def hasFlag (f e : Nat) : Bool := f &&& e != 0

theorem land_lor_right (a b c : Nat) : (a ||| b) &&& c = (a &&& c) ||| (b &&& c) := by
  apply Nat.eq_of_testBit_eq
  intro i
  simp only [Nat.testBit_land, Nat.testBit_lor]
  cases a.testBit i <;> cases b.testBit i <;> cases c.testBit i <;> rfl

theorem lor_eq_zero_iff' (a b : Nat) : a ||| b = 0 ↔ a = 0 ∧ b = 0 := by
  constructor
  · intro h
    constructor <;> apply Nat.eq_of_testBit_eq <;> intro i
    · have hb := congrArg (fun n => n.testBit i) h
      simp only [Nat.testBit_lor, Nat.zero_testBit] at hb
      simp [Bool.or_eq_false_iff.mp hb |>.1]
    · have hb := congrArg (fun n => n.testBit i) h
      simp only [Nat.testBit_lor, Nat.zero_testBit] at hb
      simp [Bool.or_eq_false_iff.mp hb |>.2]
  · rintro ⟨rfl, rfl⟩
    simp

theorem hasFlag_lor (f g e : Nat) :
    hasFlag (f ||| g) e = (hasFlag f e || hasFlag g e) := by
  unfold hasFlag
  rw [land_lor_right]
  by_cases hx : f &&& e = 0
  · rw [hx]
    simp
  · by_cases hy : g &&& e = 0
    · rw [hy]
      simp
    · have h1 : (f &&& e ||| g &&& e) ≠ 0 := by
        rw [Ne, lor_eq_zero_iff']
        tauto
      rw [bne_iff_ne.mpr hx, bne_iff_ne.mpr hy, bne_iff_ne.mpr h1]
      rfl

theorem hasFlag_lor_false (f e c : Nat) (hc : hasFlag c e = false) :
    hasFlag (f ||| c) e = hasFlag f e := by
  rw [hasFlag_lor, hc, Bool.or_false]

theorem hasFlag_lor_true (f e c : Nat) (hc : hasFlag c e = true) :
    hasFlag (f ||| c) e = true := by
  rw [hasFlag_lor, hc, Bool.or_true]

/-- One iteration of the flag-letter switch in `PrepareParts`. -/
def flagStep (f : Nat) (c : Char) : Nat :=
  if c = 'I' then f ||| Einteractive
  else if c = 'R' then f ||| Efakeroot
  else if c = 'F' then f ||| Efakechroot
  else if c = 'C' then f ||| Echroot ||| Efakeroot ||| Efakechroot
  else if c = 'E' then f ||| Eignoreexit
  else if c = 'S' then f ||| Eskip
  else f

/-- The flag-letter loop of `PrepareParts` (starting from the zero value of
`ce.flag`). -/
def parseFlags (letters : List Char) : Nat := letters.foldl flagStep 0

theorem flagStep_mono (f : Nat) (c : Char) (e : Nat) (h : hasFlag f e = true) :
    hasFlag (flagStep f c) e = true := by
  unfold flagStep
  split_ifs <;> simp [hasFlag_lor, h]

theorem foldl_flagStep_mono (ls : List Char) :
    ∀ f e, hasFlag f e = true → hasFlag (ls.foldl flagStep f) e = true := by
  induction ls with
  | nil => intro f e h; exact h
  | cons c t ih =>
    intro f e h
    exact ih (flagStep f c) e (flagStep_mono f c e h)

theorem flagStep_chroot_inv (f : Nat) (c : Char)
    (h : hasFlag f Echroot = true →
      hasFlag f Efakeroot = true ∧ hasFlag f Efakechroot = true) :
    hasFlag (flagStep f c) Echroot = true →
      hasFlag (flagStep f c) Efakeroot = true ∧
      hasFlag (flagStep f c) Efakechroot = true := by
  unfold flagStep
  split_ifs with h1 h2 h3 h4 h5 h6
  · intro hch
    rw [hasFlag_lor_false _ _ _ (by decide)] at hch
    refine ⟨?_, ?_⟩ <;> rw [hasFlag_lor_false _ _ _ (by decide)]
    · exact (h hch).1
    · exact (h hch).2
  · intro hch
    rw [hasFlag_lor_false _ _ _ (by decide)] at hch
    refine ⟨?_, ?_⟩
    · rw [hasFlag_lor_true _ _ _ (by decide)]
    · rw [hasFlag_lor_false _ _ _ (by decide)]
      exact (h hch).2
  · intro hch
    rw [hasFlag_lor_false _ _ _ (by decide)] at hch
    refine ⟨?_, ?_⟩
    · rw [hasFlag_lor_false _ _ _ (by decide)]
      exact (h hch).1
    · rw [hasFlag_lor_true _ _ _ (by decide)]
  · intro _
    refine ⟨?_, ?_⟩
    · rw [hasFlag_lor_false _ _ _ (by decide), hasFlag_lor_true _ _ _ (by decide)]
    · rw [hasFlag_lor_true _ _ _ (by decide)]
  · intro hch
    rw [hasFlag_lor_false _ _ _ (by decide)] at hch
    refine ⟨?_, ?_⟩ <;> rw [hasFlag_lor_false _ _ _ (by decide)]
    · exact (h hch).1
    · exact (h hch).2
  · intro hch
    rw [hasFlag_lor_false _ _ _ (by decide)] at hch
    refine ⟨?_, ?_⟩ <;> rw [hasFlag_lor_false _ _ _ (by decide)]
    · exact (h hch).1
    · exact (h hch).2
  · exact h

theorem foldl_flagStep_chroot_inv (ls : List Char) :
    ∀ f, (hasFlag f Echroot = true →
        hasFlag f Efakeroot = true ∧ hasFlag f Efakechroot = true) →
      hasFlag (ls.foldl flagStep f) Echroot = true →
        hasFlag (ls.foldl flagStep f) Efakeroot = true ∧
        hasFlag (ls.foldl flagStep f) Efakechroot = true := by
  induction ls with
  | nil => intro f h; exact h
  | cons c t ih =>
    intro f h
    exact ih (flagStep f c) (flagStep_chroot_inv f c h)

theorem flagStep_C_eq (f : Nat) :
    flagStep f 'C' = f ||| Echroot ||| Efakeroot ||| Efakechroot := rfl

theorem flagStep_C_sets (f : Nat) :
    hasFlag (flagStep f 'C') Echroot = true ∧
    hasFlag (flagStep f 'C') Efakeroot = true ∧
    hasFlag (flagStep f 'C') Efakechroot = true := by
  rw [flagStep_C_eq]
  refine ⟨?_, ?_, ?_⟩
  · rw [hasFlag_lor_false _ _ _ (by decide), hasFlag_lor_false _ _ _ (by decide),
      hasFlag_lor_true _ _ _ (by decide)]
  · rw [hasFlag_lor_false _ _ _ (by decide), hasFlag_lor_true _ _ _ (by decide)]
  · rw [hasFlag_lor_true _ _ _ (by decide)]

theorem flagStep_skip (f : Nat) (c : Char) :
    hasFlag (flagStep f c) Eskip = (hasFlag f Eskip || decide (c = 'S')) := by
  unfold flagStep
  split_ifs with h1 h2 h3 h4 h5 h6
  · subst h1
    rw [hasFlag_lor_false _ _ _ (by decide)]
    simp
  · subst h2
    rw [hasFlag_lor_false _ _ _ (by decide)]
    simp
  · subst h3
    rw [hasFlag_lor_false _ _ _ (by decide)]
    simp
  · subst h4
    rw [hasFlag_lor_false _ _ _ (by decide), hasFlag_lor_false _ _ _ (by decide),
      hasFlag_lor_false _ _ _ (by decide)]
    simp
  · subst h5
    rw [hasFlag_lor_false _ _ _ (by decide)]
    simp
  · subst h6
    rw [hasFlag_lor_true _ _ _ (by decide)]
    simp
  · simp [h6]

theorem foldl_flagStep_skip (ls : List Char) :
    ∀ f, hasFlag (ls.foldl flagStep f) Eskip =
      (hasFlag f Eskip || decide ('S' ∈ ls)) := by
  induction ls with
  | nil => intro f; simp
  | cons c t ih =>
    intro f
    show hasFlag (t.foldl flagStep (flagStep f c)) Eskip = _
    rw [ih (flagStep f c), flagStep_skip]
    by_cases hc : c = 'S' <;> by_cases ht : 'S' ∈ t
    · simp [hc, ht, List.mem_cons]
    · simp [hc, ht, List.mem_cons]
    · simp [hc, ht, List.mem_cons]
    · have hsc : ¬('S' = c) := fun h => hc h.symm
      simp [hc, ht, hsc, List.mem_cons]

theorem parseFlags_skip_iff (ls : List Char) :
    hasFlag (parseFlags ls) Eskip = true ↔ 'S' ∈ ls := by
  unfold parseFlags
  rw [foldl_flagStep_skip ls 0]
  simp [show hasFlag 0 Eskip = false from by decide]

/-! ## Pathname constants and the directory skeleton (util.go) -/

def PATHNAME_RIB : String := "._RIB_"
def PATHNAME_BUILDD : String := "build.d"
def PATHNAME_ROOTFS : String := "rootfs"
def PATHNAME_BIN : String := "bin"
def PATHNAME_DIST : String := "dist"
def PATHNAME_FILES : String := "files"
def PATHNAME_TMP : String := "tmp"
def PATHNAME_LOG : String := "log"
def PATHNAME_FAKEROOTSAVE : String := "fakeroot.save"

def FILETYPE_FILE : Nat := 0
def FILETYPE_DIR : Nat := 1

structure SkelEntry where
  pathname : String
  filetype : Nat
  envvar : String
  initonly : Bool
deriving DecidableEq, Repr

/-- The rib directory skeleton (util.go `dirSkeleton`). -/
def dirSkeleton : List SkelEntry :=
  [⟨PATHNAME_RIB, FILETYPE_FILE, "", true⟩,
   ⟨PATHNAME_BUILDD, FILETYPE_DIR, "RIB_DIR_BUILDD", false⟩,
   ⟨PATHNAME_ROOTFS, FILETYPE_DIR, "RIB_DIR_ROOTFS", false⟩,
   ⟨PATHNAME_BIN, FILETYPE_DIR, "RIB_DIR_BIN", false⟩,
   ⟨PATHNAME_DIST, FILETYPE_DIR, "RIB_DIR_DIST", false⟩,
   ⟨PATHNAME_FILES, FILETYPE_DIR, "RIB_DIR_FILES", false⟩,
   ⟨PATHNAME_TMP, FILETYPE_DIR, "RIB_DIR_TEMP", false⟩,
   ⟨PATHNAME_LOG, FILETYPE_DIR, "RIB_DIR_LOG", false⟩,
   ⟨PATHNAME_FAKEROOTSAVE, FILETYPE_FILE, "", false⟩]

/-! ## The command execution environment (fileop.go `CmdEnv`) -/

/-- Oracles for the Go path/exec library collaborators used by the core:
`filepath.Join` (two-argument form), `filepath.Rel` (`none` models its error
return), `exec.LookPath` (`none` models "executable not found") and
`filepath.Base`. -/
structure Paths where
  join : String → String → String
  rel : String → String → Option String
  lookPath : String → Option String
  base : String → String

/-- `CmdEnv`, with the embedded `exec.Cmd`'s fields that the core uses
(`Path`, `Args`, `Env`) inlined.  Field defaults are the Go zero values, so
`{ }` corresponds to `&CmdEnv{}`. -/
structure CmdEnv where
  path : String := ""
  args : List String := []
  env : List String := []
  flag : Nat := 0
  workDir : String := ""
  chrootDir : String := ""
  fakerootSaveFile : String := ""
  vTmpDir : String := ""
  vExecDir : String := ""
deriving DecidableEq, Repr

/-! ## PrepareParts (fileop.go): filename grammar and selection -/

/-- The anchored regular expression match of
`regexp.MustCompile('^(\d+)-([A-Z]*)-')` applied via `FindStringSubmatch`:
returns the two capture groups (digit run, flag letters) when the name
matches.  Because the character after the greedy `\d+` must be `-` (not a
digit) and the character after the greedy `[A-Z]*` must be `-` (not an
uppercase letter), the match is exactly: maximal leading digit run
(nonempty), a dash, maximal uppercase run, a dash. -/
def reMatchTail (ds r2 : List Char) : Option (List Char × List Char) :=
  match r2.dropWhile (fun c => c.isUpper) with
  | '-' :: _ => some (ds, r2.takeWhile (fun c => c.isUpper))
  | _ => none

def reMatchAfterDigits (ds r1 : List Char) : Option (List Char × List Char) :=
  match r1 with
  | '-' :: r2 => reMatchTail ds r2
  | _ => none

def reMatch (n : List Char) : Option (List Char × List Char) :=
  if (n.takeWhile (fun c => c.isDigit)).isEmpty then none
  else reMatchAfterDigits (n.takeWhile (fun c => c.isDigit))
    (n.dropWhile (fun c => c.isDigit))

/-- Numeric value of a digit run (base 10). -/
def digitsVal (ds : List Char) : Nat :=
  ds.foldl (fun a c => a * 10 + (c.toNat - 48)) 0

/-- Go's maximum `int` on 64-bit targets. -/
def maxGoInt : Nat := 9223372036854775807

/-- `strconv.Atoi` on a string of decimal digits (the only shape it is
applied to here): the numeric value, or `none` when the value overflows a
signed 64-bit `int` (Go returns `ErrRange` and the call site skips the
entry). -/
def goAtoi (ds : List Char) : Option Nat :=
  if ds.isEmpty then none
  else if ds.all (fun c => c.isDigit) then
    if digitsVal ds ≤ maxGoInt then some (digitsVal ds) else none
  else none

/-- One iteration of the selection loop of `PrepareParts`: regex mismatch,
`Atoi` error, sequence below `seqmin` and the skip flag all `continue`
(yield nothing); otherwise the configured `CmdEnv` is registered. -/
def prepareOne (p : Paths) (dir : String) (seqmin : Int) (name : String) :
    Option CmdEnv :=
  match reMatch name.toList with
  | none => none
  | some (ds, ls) =>
    match goAtoi ds with
    | none => none
    | some seq =>
      if (seq : Int) < seqmin then none
      else
        let fl := parseFlags ls
        if hasFlag fl Eskip then none
        else some { path := p.join dir name, args := [p.join dir name],
                    flag := fl }

/-- Translation of the selection loop of `PrepareParts`, over the
directory-enumeration result `files` (in enumeration order).  `ReadDir`
errors concern the enumeration itself and are outside this function. -/
def prepareParts (p : Paths) (dir : String) (files : List String)
    (seqmin : Int) : List CmdEnv :=
  files.filterMap (prepareOne p dir seqmin)

/-- The acceptance predicate implicit in `prepareParts`, factored out. -/
def keepName (seqmin : Int) (n : List Char) : Bool :=
  match reMatch n with
  | none => false
  | some (ds, ls) =>
    match goAtoi ds with
    | none => false
    | some seq =>
      if (seq : Int) < seqmin then false
      else !(hasFlag (parseFlags ls) Eskip)

/-- The `CmdEnv` that `prepareParts` registers for an accepted name. -/
def mkCmdEnv (p : Paths) (dir : String) (name : String) : CmdEnv :=
  { path := p.join dir name, args := [p.join dir name],
    flag := match reMatch name.toList with
            | some (_, ls) => parseFlags ls
            | none => 0 }

/-- Spec-side: the filename grammar `^(\d+)-([A-Z]*)-` as a decomposition
(digit run, flag letters, free-form remainder). -/
def SpecGrammar (n ds ls rest : List Char) : Prop :=
  n = ds ++ '-' :: (ls ++ '-' :: rest) ∧ ds ≠ [] ∧
    (∀ c ∈ ds, c.isDigit = true) ∧ (∀ c ∈ ls, c.isUpper = true)

/-- Spec-side: the claim's acceptance criterion as literally stated —
matches the grammar, digit run (as an unbounded integer) at least `seqmin`,
no `S` flag. -/
def SpecKeepClaim (seqmin : Int) (n : List Char) : Prop :=
  ∃ ds ls rest, SpecGrammar n ds ls rest ∧
    (digitsVal ds : Int) ≥ seqmin ∧ 'S' ∉ ls

/-- Spec-side: the acceptance criterion amended with the 64-bit bound that
`strconv.Atoi` imposes. -/
def SpecKeep64 (seqmin : Int) (n : List Char) : Prop :=
  ∃ ds ls rest, SpecGrammar n ds ls rest ∧ digitsVal ds ≤ maxGoInt ∧
    (digitsVal ds : Int) ≥ seqmin ∧ 'S' ∉ ls

theorem takeWhile_all_append {p : Char → Bool} (l : List Char) (x : Char)
    (t : List Char) (hl : ∀ c ∈ l, p c = true) (hx : p x = false) :
    (l ++ x :: t).takeWhile p = l ∧ (l ++ x :: t).dropWhile p = x :: t := by
  induction l with
  | nil => simp [List.takeWhile_cons, List.dropWhile_cons, hx]
  | cons a l ih =>
    have ha : p a = true := hl a (List.mem_cons_self a l)
    have hl' : ∀ c ∈ l, p c = true := fun c hc => hl c (List.mem_cons_of_mem a hc)
    obtain ⟨ih1, ih2⟩ := ih hl'
    refine ⟨?_, ?_⟩
    · rw [List.cons_append, List.takeWhile_cons, ha]
      simp [ih1]
    · rw [List.cons_append, List.dropWhile_cons, ha]
      simp [ih2]

theorem reMatch_of_grammar (n ds ls rest : List Char)
    (hg : SpecGrammar n ds ls rest) : reMatch n = some (ds, ls) := by
  obtain ⟨hn, hne, hd, hu⟩ := hg
  have h1 := @takeWhile_all_append (fun c => c.isDigit) ds '-'
    (ls ++ '-' :: rest) hd (by decide)
  have h2 := @takeWhile_all_append (fun c => c.isUpper) ls '-' rest hu
    (by decide)
  unfold reMatch
  rw [hn, h1.1, h1.2, if_neg (by simp [hne])]
  have hred : reMatchAfterDigits ds ('-' :: (ls ++ '-' :: rest)) =
      reMatchTail ds (ls ++ '-' :: rest) := rfl
  rw [hred]
  unfold reMatchTail
  rw [h2.1, h2.2]
  rfl

theorem mem_takeWhile {p : Char → Bool} (l : List Char) :
    ∀ c ∈ l.takeWhile p, p c = true := fun _ hc => List.mem_takeWhile_imp hc

theorem reMatch_eq_some (n ds ls : List Char) (h : reMatch n = some (ds, ls)) :
    ∃ rest, SpecGrammar n ds ls rest := by
  unfold reMatch at h
  by_cases hE : (n.takeWhile (fun c => c.isDigit)).isEmpty = true
  · rw [if_pos hE] at h
    exact absurd h (by simp)
  · rw [if_neg hE] at h
    unfold reMatchAfterDigits at h
    split at h
    · next r2 heq =>
      unfold reMatchTail at h
      split at h
      · next c rest heq2 =>
        simp only [Option.some.injEq, Prod.mk.injEq] at h
        obtain ⟨hds, hls⟩ := h
        refine ⟨rest, ?_, ?_, ?_, ?_⟩
        · have hsplit : n.takeWhile (fun c => c.isDigit) ++
              n.dropWhile (fun c => c.isDigit) = n :=
            List.takeWhile_append_dropWhile (fun c => c.isDigit) n
          have hsplit2 : r2.takeWhile (fun c => c.isUpper) ++
              r2.dropWhile (fun c => c.isUpper) = r2 :=
            List.takeWhile_append_dropWhile (fun c => c.isUpper) r2
          conv_lhs => rw [← hsplit]
          rw [hds, heq, ← hls, ← heq2, hsplit2]
        · rw [← hds]
          intro hnil
          rw [hnil] at hE
          exact hE rfl
        · rw [← hds]
          exact mem_takeWhile n
        · rw [← hls]
          exact mem_takeWhile r2
      · exact absurd h (by simp)
    · exact absurd h (by simp)

theorem goAtoi_of_digits (ds : List Char) (hne : ds ≠ [])
    (hd : ∀ c ∈ ds, c.isDigit = true) (hle : digitsVal ds ≤ maxGoInt) :
    goAtoi ds = some (digitsVal ds) := by
  unfold goAtoi
  rw [if_neg (by simp [hne]), if_pos (List.all_eq_true.mpr hd), if_pos hle]

theorem goAtoi_some (ds : List Char) (seq : Nat) (h : goAtoi ds = some seq) :
    seq = digitsVal ds ∧ digitsVal ds ≤ maxGoInt := by
  unfold goAtoi at h
  by_cases h1 : ds.isEmpty = true
  · rw [if_pos h1] at h
    exact absurd h (by simp)
  · rw [if_neg h1] at h
    by_cases h2 : ds.all (fun c => c.isDigit) = true
    · rw [if_pos h2] at h
      by_cases h3 : digitsVal ds ≤ maxGoInt
      · rw [if_pos h3] at h
        exact ⟨(Option.some.inj h).symm, h3⟩
      · rw [if_neg h3] at h
        exact absurd h (by simp)
    · rw [if_neg h2] at h
      exact absurd h (by simp)

theorem keepName_of_reMatch_none (seqmin : Int) (n : List Char)
    (hm : reMatch n = none) : keepName seqmin n = false := by
  unfold keepName
  rw [hm]

theorem keepName_of_atoi_none (seqmin : Int) (n ds ls : List Char)
    (hm : reMatch n = some (ds, ls)) (ha : goAtoi ds = none) :
    keepName seqmin n = false := by
  unfold keepName
  rw [hm]
  show (match goAtoi ds with
    | none => false
    | some seq =>
      if (seq : Int) < seqmin then false
      else !(hasFlag (parseFlags ls) Eskip)) = false
  rw [ha]

theorem keepName_of_atoi_some (seqmin : Int) (n ds ls : List Char) (seq : Nat)
    (hm : reMatch n = some (ds, ls)) (ha : goAtoi ds = some seq) :
    keepName seqmin n =
      if (seq : Int) < seqmin then false
      else !(hasFlag (parseFlags ls) Eskip) := by
  unfold keepName
  rw [hm]
  show (match goAtoi ds with
    | none => false
    | some seq =>
      if (seq : Int) < seqmin then false
      else !(hasFlag (parseFlags ls) Eskip)) = _
  rw [ha]

/-- The acceptance test of `prepareParts` coincides with the spec-side
criterion amended with the 64-bit `Atoi` bound. -/
theorem keepName_iff_SpecKeep64 (seqmin : Int) (n : List Char) :
    keepName seqmin n = true ↔ SpecKeep64 seqmin n := by
  constructor
  · intro h
    unfold keepName at h
    split at h
    · exact absurd h (by simp)
    · rename_i ds ls hm
      split at h
      · exact absurd h (by simp)
      · rename_i seq ha
        split at h
        · exact absurd h (by simp)
        · rename_i hlt
          obtain ⟨rest, hg⟩ := reMatch_eq_some n ds ls hm
          obtain ⟨hseq, hbound⟩ := goAtoi_some ds seq ha
          subst hseq
          refine ⟨ds, ls, rest, hg, hbound, by omega, ?_⟩
          intro hS
          rw [(parseFlags_skip_iff ls).mpr hS] at h
          simp at h
  · rintro ⟨ds, ls, rest, hg, hbound, hge, hS⟩
    have hm := reMatch_of_grammar n ds ls rest hg
    rw [keepName_of_atoi_some seqmin n ds ls (digitsVal ds) hm
      (goAtoi_of_digits ds hg.2.1 hg.2.2.1 hbound), if_neg (by omega)]
    have hsk : hasFlag (parseFlags ls) Eskip = false := by
      rw [Bool.eq_false_iff]
      intro hskt
      exact hS ((parseFlags_skip_iff ls).mp hskt)
    rw [hsk]
    rfl

theorem prepareOne_eq (p : Paths) (dir : String) (seqmin : Int) (name : String) :
    prepareOne p dir seqmin name =
      if keepName seqmin name.toList then some (mkCmdEnv p dir name) else none := by
  unfold prepareOne
  split
  · rename_i hm
    rw [keepName_of_reMatch_none seqmin name.toList hm]
    rfl
  · rename_i ds ls hm
    split
    · rename_i ha
      rw [keepName_of_atoi_none seqmin name.toList ds ls hm ha]
      rfl
    · rename_i seq ha
      rw [keepName_of_atoi_some seqmin name.toList ds ls seq hm ha]
      by_cases hlt : (seq : Int) < seqmin
      · rw [if_pos hlt, if_pos hlt]
        rfl
      · rw [if_neg hlt, if_neg hlt]
        by_cases hsk : hasFlag (parseFlags ls) Eskip = true
        · simp [hsk]
        · rw [Bool.not_eq_true] at hsk
          simp only [hsk, Bool.not_false, if_pos rfl]
          unfold mkCmdEnv
          rw [hm]
          simp

/-- `prepareParts` keeps, in enumeration order, exactly the accepted names. -/
theorem prepareParts_eq_filter (p : Paths) (dir : String) (files : List String)
    (seqmin : Int) :
    prepareParts p dir files seqmin =
      (files.filter (fun nm => keepName seqmin nm.toList)).map (mkCmdEnv p dir) := by
  induction files with
  | nil => rfl
  | cons nm t ih =>
    show (nm :: t).filterMap (prepareOne p dir seqmin) = _
    rw [List.filterMap_cons, List.filter_cons, prepareOne_eq]
    by_cases hk : keepName seqmin nm.toList = true
    · rw [if_pos hk, hk, if_pos rfl, List.map_cons]
      exact congrArg _ ih
    · rw [Bool.not_eq_true] at hk
      rw [if_neg (by rw [hk]; simp), hk]
      simpa using ih

/-! ## MakeArgs (fileop.go): wrapper-command argument composition -/

inductive ArgsErr where
  | chrootUndefined
  | lookFail (prog : String)
deriving DecidableEq, Repr

/-- The `Echroot` block of `MakeArgs`: require `chrootDir`, write the
original path into `Args[0]` (creating `Args` if nil), resolve `chroot` on
the search path, and prepend `[chroot, <root>]`. -/
def makeArgsChrootStage (p : Paths) (ce : CmdEnv) : Except ArgsErr CmdEnv :=
  if hasFlag ce.flag Echroot then
    if ce.chrootDir = "" then .error .chrootUndefined
    else
      match p.lookPath "chroot" with
      | none => .error (.lookFail "chroot")
      | some cp =>
        .ok { ce with
          path := cp,
          args := cp :: ce.chrootDir ::
            (if ce.path ≠ "" then
              (match ce.args with
                | [] => [ce.path]
                | _ :: t => ce.path :: t)
             else ce.args) }
  else .ok ce

/-- The `Efakeroot` block of `MakeArgs`: resolve `fakeroot` and prepend
either `[fakeroot, -s, <save>, -i, <save>, --]` or `[fakeroot, --]`. -/
def makeArgsFakerootStage (p : Paths) (ce : CmdEnv) : Except ArgsErr CmdEnv :=
  if hasFlag ce.flag Efakeroot then
    match p.lookPath "fakeroot" with
    | none => .error (.lookFail "fakeroot")
    | some fp =>
      if ce.fakerootSaveFile ≠ "" then
        .ok { ce with
          path := fp,
          args := fp :: "-s" :: ce.fakerootSaveFile :: "-i" ::
            ce.fakerootSaveFile :: "--" :: ce.args }
      else .ok { ce with path := fp, args := fp :: "--" :: ce.args }
  else .ok ce

/-- The `Efakechroot` block of `MakeArgs`: resolve `fakechroot` and prepend
`[fakechroot, --environment, debootstrap, --]`. -/
def makeArgsFakechrootStage (p : Paths) (ce : CmdEnv) : Except ArgsErr CmdEnv :=
  if hasFlag ce.flag Efakechroot then
    match p.lookPath "fakechroot" with
    | none => .error (.lookFail "fakechroot")
    | some fcp =>
      .ok { ce with
        path := fcp,
        args := fcp :: "--environment" :: "debootstrap" :: "--" :: ce.args }
  else .ok ce

/-- Translation of `MakeArgs`: the three wrapper blocks in source order
(chroot innermost, then fakeroot, then fakechroot outermost); the first
failing block aborts the call. -/
def makeArgs (p : Paths) (ce : CmdEnv) : Except ArgsErr CmdEnv :=
  match makeArgsChrootStage p ce with
  | .error e => .error e
  | .ok ce1 =>
    match makeArgsFakerootStage p ce1 with
    | .error e => .error e
    | .ok ce2 => makeArgsFakechrootStage p ce2

/-! ## SetEnv (fileop.go): child environment construction -/

inductive EnvErr where
  | relFail
deriving DecidableEq, Repr

/-- Render environment entries as `NAME=value`. -/
def renderEnv (l : List (String × String)) : List String :=
  l.map (fun e => e.1 ++ "=" ++ e.2)

/-- The mode-specific (volatile) environment assignments of `SetEnv`, in
assignment order.  The Go code stores these in a `map` with pairwise
distinct keys and copies it out with an unspecified `range` order; the
model fixes insertion order, and the properties proved about the result do
not depend on the order within this block. -/
def volatileEnv (p : Paths) (ce : CmdEnv) (r : String) : List (String × String) :=
  if hasFlag ce.flag Echroot then
    [("PATH", "/usr/sbin:/usr/bin:/sbin:/bin"), ("VTEMP", p.join "/" r)]
  else
    [("PATH", p.join ce.workDir PATHNAME_BIN ++ ":" ++ "/usr/sbin:/usr/bin:/sbin:/bin"),
     ("VTEMP", ce.vTmpDir)] ++
    (dirSkeleton.filter (fun d => d.envvar != "")).map
      (fun d => (d.envvar, p.join ce.workDir d.pathname))

/-- Translation of `SetEnv`.  `persist` is the enumeration of the
persistent store `cmdPersistEnv` at the time of the call (Go `range` order
over the map).  In chroot mode the `VTEMP` value is
`filepath.Join("/", filepath.Rel(workDir/rootfs, vTmpDir))`, whose failure
aborts the call. -/
def setEnv (p : Paths) (ce : CmdEnv) (persist : List (String × String)) :
    Except EnvErr CmdEnv :=
  if hasFlag ce.flag Echroot then
    match p.rel (p.join ce.workDir PATHNAME_ROOTFS) ce.vTmpDir with
    | none => .error .relFail
    | some r =>
      .ok { ce with env := ce.env ++ renderEnv (volatileEnv p ce r) ++
              renderEnv persist ++ ["RIB_EXEC_ENV=1"] }
  else
    .ok { ce with env := ce.env ++ renderEnv (volatileEnv p ce "") ++
            renderEnv persist ++ ["RIB_EXEC_ENV=1"] }

/-! ## RunCmd (fileop.go): process supervision -/

inductive RunErr where
  | tmpDirFail
  | execDirFail
  | copyFail
  | envErr (e : EnvErr)
  | argsErr (e : ArgsErr)
  | pipeFail
  | stdoutPipeFail
  | stderrPipeFail
  | startFail
  | closeFail
  | waitFail
deriving DecidableEq, Repr

/-- Oracles for the fallible OS steps of one `RunCmd` invocation.
`tmpDir`/`execDir` are the fresh directory names `ioutil.TempDir` returns
(`none` models its error); the `Ok` booleans give the outcomes of
`CopyFile`, `os.Pipe`, `StdoutPipe`, `StderrPipe`, `ce.Start`,
`pipeWriteFile.Close` and `ce.Wait` (`waitOk = false` is a non-zero or
abnormal exit).  `persist` is the enumeration of `cmdPersistEnv` read by
`SetEnv`. -/
structure RunOracle where
  tmpDir : Option String
  execDir : Option String
  copyOk : Bool
  pipeOk : Bool
  stdoutPipeOk : Bool
  stderrPipeOk : Bool
  startOk : Bool
  closeOk : Bool
  waitOk : Bool
  persist : List (String × String)

/-- Translation of `MakeVolatileDirs`, with the on-disk set of volatile
directories tracked explicitly: the temp dir is created first (under
`workDir/rootfs` in chroot mode, `workDir/tmp` otherwise), then, in chroot
mode only, the exec-staging dir.  A failure between the two leaves the
already-created temp dir on disk and in `vTmpDir`. -/
def makeVolatileDirs (o : RunOracle) (ce : CmdEnv) (disk : List String) :
    Option RunErr × CmdEnv × List String :=
  match o.tmpDir with
  | none => (some .tmpDirFail, ce, disk)
  | some t =>
    if hasFlag ce.flag Echroot then
      match o.execDir with
      | none => (some .execDirFail, { ce with vTmpDir := t }, disk ++ [t])
      | some x => (none, { ce with vTmpDir := t, vExecDir := x }, disk ++ [t] ++ [x])
    else (none, { ce with vTmpDir := t }, disk ++ [t])

/-- One iteration of the `RemoveVolatileDirs` loop: `os.RemoveAll(dir)` when
`dir` is nonempty (removal is recursive and idempotent). -/
def removeOne (dir : String) (disk : List String) : List String :=
  if dir ≠ "" then disk.filter (fun d => d != dir) else disk

/-- Translation of `RemoveVolatileDirs`: remove `vTmpDir` then `vExecDir`
when nonempty. -/
def removeVolatileDirs (ce : CmdEnv) (disk : List String) : List String :=
  removeOne ce.vExecDir (removeOne ce.vTmpDir disk)

/-- The copy-into-chroot step of `RunCmd`: in chroot mode without
`Edirectexec`, `CopyFile(vExecDir, Path)` runs and `Path` is rewritten to
`filepath.Join("/", Base(vExecDir), Base(Path))`. -/
def copyStage (p : Paths) (o : RunOracle) (ce : CmdEnv) : Except RunErr CmdEnv :=
  if hasFlag ce.flag Echroot && !hasFlag ce.flag Edirectexec then
    if o.copyOk then
      .ok { ce with path := p.join "/" (p.join (p.base ce.vExecDir) (p.base ce.path)) }
    else .error .copyFail
  else .ok ce

/-- The pipe/start/drain/wait tail of `RunCmd` after `MakeArgs`: the side
channel pipe is created; in interactive mode the terminal is inherited, the
process started, the parent's pipe write end closed and the drain joined,
then `Wait`; in captured mode stdout/stderr pipes are created before start
and their close error is only logged.  A start failure or (interactive
mode) a close failure returns early; only the `Wait` error reaches the
`Eignoreexit` downgrade. -/
def drainStage (o : RunOracle) (ce : CmdEnv) : Option RunErr :=
  if !o.pipeOk then some .pipeFail
  else if hasFlag ce.flag Einteractive then
    if !o.startOk then some .startFail
    else if !o.closeOk then some .closeFail
    else if !o.waitOk && !hasFlag ce.flag Eignoreexit then some .waitFail
    else none
  else
    if !o.stdoutPipeOk then some .stdoutPipeFail
    else if !o.stderrPipeOk then some .stderrPipeFail
    else if !o.startOk then some .startFail
    else if !o.waitOk && !hasFlag ce.flag Eignoreexit then some .waitFail
    else none

/-- `RunCmd` after `MakeArgs` has succeeded: the pipe/start/drain/wait
tail. -/
def bodyAfterArgs (o : RunOracle) (ce3 : CmdEnv) : Option RunErr × CmdEnv :=
  (drainStage o ce3, ce3)

/-- `RunCmd` after `SetEnv` has succeeded: `MakeArgs`, then the tail. -/
def bodyAfterEnv (p : Paths) (o : RunOracle) (ce2 : CmdEnv) :
    Option RunErr × CmdEnv :=
  match makeArgs p ce2 with
  | .error e => (some (.argsErr e), ce2)
  | .ok ce3 => bodyAfterArgs o ce3

/-- `RunCmd` after the copy-into-chroot step has succeeded: `SetEnv`, then
the rest. -/
def bodyAfterCopy (p : Paths) (o : RunOracle) (ce1 : CmdEnv) :
    Option RunErr × CmdEnv :=
  match setEnv p ce1 o.persist with
  | .error e => (some (.envErr e), ce1)
  | .ok ce2 => bodyAfterEnv p o ce2

/-- The part of `RunCmd` that runs after `defer ce.RemoveVolatileDirs()`
has been registered: copy-into-chroot, `SetEnv`, `MakeArgs`, then the
pipe/start/drain/wait tail.  Every failure before `Wait` returns early,
before the `Eignoreexit` downgrade at the bottom of `RunCmd` (that
downgrade is inside `drainStage`, applied only to the `Wait` error). -/
def runCmdBody (p : Paths) (o : RunOracle) (ce : CmdEnv) : Option RunErr × CmdEnv :=
  match copyStage p o ce with
  | .error e => (some e, ce)
  | .ok ce1 => bodyAfterCopy p o ce1

structure RunOutcome where
  err : Option RunErr
  ce : CmdEnv
  disk : List String
  releases : Nat
deriving Repr

/-- Translation of `RunCmd`'s control flow.  The chroot root and fakeroot
save file are unconditionally overwritten from `workDir` first.  The
`defer ce.RemoveVolatileDirs()` is registered only after
`MakeVolatileDirs` has returned successfully: on a `MakeVolatileDirs`
error `RunCmd` returns before the `defer` statement executes, so no
release runs (`releases = 0`) and whatever `MakeVolatileDirs` created is
left on disk; on every later exit path the deferred release runs exactly
once. -/
def runCmdInit (p : Paths) (ce0 : CmdEnv) : CmdEnv :=
  { ce0 with
    chrootDir := p.join ce0.workDir PATHNAME_ROOTFS,
    fakerootSaveFile := p.join ce0.workDir PATHNAME_FAKEROOTSAVE }

/-- The tail of `runCmd` once `MakeVolatileDirs` has succeeded and the
deferred release is registered: the body runs, then the release runs
exactly once, on every exit path of the body. -/
def runCmdAfterDirs (p : Paths) (o : RunOracle) (ce1 : CmdEnv)
    (disk1 : List String) : RunOutcome :=
  ⟨(runCmdBody p o ce1).1, (runCmdBody p o ce1).2,
    removeVolatileDirs (runCmdBody p o ce1).2 disk1, 1⟩

def runCmd (p : Paths) (o : RunOracle) (ce0 : CmdEnv) (disk0 : List String) :
    RunOutcome :=
  match makeVolatileDirs o (runCmdInit p ce0) disk0 with
  | (some e, ce1, disk1) => ⟨some e, ce1, disk1, 0⟩
  | (none, ce1, disk1) => runCmdAfterDirs p o ce1 disk1

/-- The request loop of `cmdBuild`: run each request in order and halt at
the first one whose `RunCmd` returns an error (`run` abstracts one
`RunCmd` invocation).  Returns the list of requests that were started, in
order, and the terminating error if any. -/
def cmdBuildSeq {α ε : Type} (run : α → Option ε) : List α → List α × Option ε
  | [] => ([], none)
  | ce :: rest =>
    match run ce with
    | some e => ([ce], some e)
    | none =>
      let r := cmdBuildSeq run rest
      (ce :: r.1, r.2)

/-! ## Preservation and characterization lemmas for the RunCmd pipeline -/

/-- The fields set once by the head of `RunCmd` and read later. -/
def SameCore (a b : CmdEnv) : Prop :=
  a.flag = b.flag ∧ a.workDir = b.workDir ∧ a.chrootDir = b.chrootDir ∧
    a.fakerootSaveFile = b.fakerootSaveFile

theorem sameCore_refl (a : CmdEnv) : SameCore a a := ⟨rfl, rfl, rfl, rfl⟩

theorem sameCore_trans {a b c : CmdEnv} (h1 : SameCore a b) (h2 : SameCore b c) :
    SameCore a c :=
  ⟨h1.1.trans h2.1, h1.2.1.trans h2.2.1, h1.2.2.1.trans h2.2.2.1,
    h1.2.2.2.trans h2.2.2.2⟩

theorem copyStage_core (p : Paths) (o : RunOracle) (ce ce' : CmdEnv)
    (h : copyStage p o ce = .ok ce') :
    SameCore ce' ce ∧ ce'.args = ce.args ∧ ce'.env = ce.env ∧
      ce'.vTmpDir = ce.vTmpDir ∧ ce'.vExecDir = ce.vExecDir := by
  unfold copyStage at h
  by_cases h1 : (hasFlag ce.flag Echroot && !hasFlag ce.flag Edirectexec) = true
  · rw [if_pos h1] at h
    by_cases h2 : o.copyOk = true
    · rw [if_pos h2] at h
      obtain rfl := Except.ok.inj h
      exact ⟨⟨rfl, rfl, rfl, rfl⟩, rfl, rfl, rfl, rfl⟩
    · rw [if_neg h2] at h
      exact Except.noConfusion h
  · rw [if_neg h1] at h
    obtain rfl := Except.ok.inj h
    exact ⟨⟨rfl, rfl, rfl, rfl⟩, rfl, rfl, rfl, rfl⟩

theorem setEnv_core (p : Paths) (ce : CmdEnv) (persist : List (String × String))
    (ce' : CmdEnv) (h : setEnv p ce persist = .ok ce') :
    SameCore ce' ce ∧ ce'.path = ce.path ∧ ce'.args = ce.args ∧
      ce'.vTmpDir = ce.vTmpDir ∧ ce'.vExecDir = ce.vExecDir := by
  unfold setEnv at h
  by_cases h1 : hasFlag ce.flag Echroot = true
  · rw [if_pos h1] at h
    split at h
    · exact Except.noConfusion h
    · obtain rfl := Except.ok.inj h
      exact ⟨⟨rfl, rfl, rfl, rfl⟩, rfl, rfl, rfl, rfl⟩
  · rw [if_neg h1] at h
    obtain rfl := Except.ok.inj h
    exact ⟨⟨rfl, rfl, rfl, rfl⟩, rfl, rfl, rfl, rfl⟩

theorem chrootStage_core (p : Paths) (ce ce' : CmdEnv)
    (h : makeArgsChrootStage p ce = .ok ce') :
    SameCore ce' ce ∧ ce'.env = ce.env ∧
      ce'.vTmpDir = ce.vTmpDir ∧ ce'.vExecDir = ce.vExecDir := by
  unfold makeArgsChrootStage at h
  by_cases h1 : hasFlag ce.flag Echroot = true
  · rw [if_pos h1] at h
    by_cases h2 : ce.chrootDir = ""
    · rw [if_pos h2] at h
      exact Except.noConfusion h
    · rw [if_neg h2] at h
      split at h
      · exact Except.noConfusion h
      · obtain rfl := Except.ok.inj h
        exact ⟨⟨rfl, rfl, rfl, rfl⟩, rfl, rfl, rfl⟩
  · rw [if_neg h1] at h
    obtain rfl := Except.ok.inj h
    exact ⟨⟨rfl, rfl, rfl, rfl⟩, rfl, rfl, rfl⟩

theorem fakerootStage_core (p : Paths) (ce ce' : CmdEnv)
    (h : makeArgsFakerootStage p ce = .ok ce') :
    SameCore ce' ce ∧ ce'.env = ce.env ∧
      ce'.vTmpDir = ce.vTmpDir ∧ ce'.vExecDir = ce.vExecDir := by
  unfold makeArgsFakerootStage at h
  by_cases h1 : hasFlag ce.flag Efakeroot = true
  · rw [if_pos h1] at h
    split at h
    · exact Except.noConfusion h
    · by_cases h2 : ce.fakerootSaveFile ≠ ""
      · rw [if_pos h2] at h
        obtain rfl := Except.ok.inj h
        exact ⟨⟨rfl, rfl, rfl, rfl⟩, rfl, rfl, rfl⟩
      · rw [if_neg h2] at h
        obtain rfl := Except.ok.inj h
        exact ⟨⟨rfl, rfl, rfl, rfl⟩, rfl, rfl, rfl⟩
  · rw [if_neg h1] at h
    obtain rfl := Except.ok.inj h
    exact ⟨⟨rfl, rfl, rfl, rfl⟩, rfl, rfl, rfl⟩

theorem fakechrootStage_core (p : Paths) (ce ce' : CmdEnv)
    (h : makeArgsFakechrootStage p ce = .ok ce') :
    SameCore ce' ce ∧ ce'.env = ce.env ∧
      ce'.vTmpDir = ce.vTmpDir ∧ ce'.vExecDir = ce.vExecDir := by
  unfold makeArgsFakechrootStage at h
  by_cases h1 : hasFlag ce.flag Efakechroot = true
  · rw [if_pos h1] at h
    split at h
    · exact Except.noConfusion h
    · obtain rfl := Except.ok.inj h
      exact ⟨⟨rfl, rfl, rfl, rfl⟩, rfl, rfl, rfl⟩
  · rw [if_neg h1] at h
    obtain rfl := Except.ok.inj h
    exact ⟨⟨rfl, rfl, rfl, rfl⟩, rfl, rfl, rfl⟩

theorem makeArgs_core (p : Paths) (ce ce' : CmdEnv) (h : makeArgs p ce = .ok ce') :
    SameCore ce' ce ∧ ce'.env = ce.env ∧
      ce'.vTmpDir = ce.vTmpDir ∧ ce'.vExecDir = ce.vExecDir := by
  unfold makeArgs at h
  split at h
  · exact Except.noConfusion h
  · rename_i ce1 h1
    split at h
    · exact Except.noConfusion h
    · rename_i ce2 h2
      obtain ⟨c1, e1, t1, x1⟩ := chrootStage_core p ce ce1 h1
      obtain ⟨c2, e2, t2, x2⟩ := fakerootStage_core p ce1 ce2 h2
      obtain ⟨c3, e3, t3, x3⟩ := fakechrootStage_core p ce2 ce' h
      exact ⟨sameCore_trans c3 (sameCore_trans c2 c1),
        (e3.trans e2).trans e1, (t3.trans t2).trans t1, (x3.trans x2).trans x1⟩

theorem bodyAfterArgs_core (o : RunOracle) (ce3 : CmdEnv) :
    (bodyAfterArgs o ce3).2 = ce3 := rfl

theorem bodyAfterEnv_core (p : Paths) (o : RunOracle) (ce2 : CmdEnv) :
    SameCore (bodyAfterEnv p o ce2).2 ce2 ∧
      (bodyAfterEnv p o ce2).2.vTmpDir = ce2.vTmpDir ∧
      (bodyAfterEnv p o ce2).2.vExecDir = ce2.vExecDir := by
  unfold bodyAfterEnv
  cases hm : makeArgs p ce2 with
  | error e => exact ⟨sameCore_refl ce2, rfl, rfl⟩
  | ok ce3 =>
    obtain ⟨c3, _, t3, x3⟩ := makeArgs_core p ce2 ce3 hm
    exact ⟨c3, t3, x3⟩

theorem bodyAfterCopy_core (p : Paths) (o : RunOracle) (ce1 : CmdEnv) :
    SameCore (bodyAfterCopy p o ce1).2 ce1 ∧
      (bodyAfterCopy p o ce1).2.vTmpDir = ce1.vTmpDir ∧
      (bodyAfterCopy p o ce1).2.vExecDir = ce1.vExecDir := by
  unfold bodyAfterCopy
  cases hs : setEnv p ce1 o.persist with
  | error e => exact ⟨sameCore_refl ce1, rfl, rfl⟩
  | ok ce2 =>
    obtain ⟨c2, _, _, t2, x2⟩ := setEnv_core p ce1 o.persist ce2 hs
    obtain ⟨c3, t3, x3⟩ := bodyAfterEnv_core p o ce2
    exact ⟨sameCore_trans c3 c2, t3.trans t2, x3.trans x2⟩

theorem runCmdBody_core (p : Paths) (o : RunOracle) (ce : CmdEnv) :
    SameCore (runCmdBody p o ce).2 ce ∧
      (runCmdBody p o ce).2.vTmpDir = ce.vTmpDir ∧
      (runCmdBody p o ce).2.vExecDir = ce.vExecDir := by
  unfold runCmdBody
  cases hc : copyStage p o ce with
  | error e => exact ⟨sameCore_refl ce, rfl, rfl⟩
  | ok ce1 =>
    obtain ⟨c1, _, _, t1, x1⟩ := copyStage_core p o ce ce1 hc
    obtain ⟨c2, t2, x2⟩ := bodyAfterCopy_core p o ce1
    exact ⟨sameCore_trans c2 c1, t2.trans t1, x2.trans x1⟩

/-! ## Equation and error-shape lemmas for the RunCmd pipeline -/

theorem makeVolatileDirs_none (o : RunOracle) (ce : CmdEnv) (disk : List String)
    (h : o.tmpDir = none) :
    makeVolatileDirs o ce disk = (some .tmpDirFail, ce, disk) := by
  unfold makeVolatileDirs
  rw [h]

theorem makeVolatileDirs_nonchroot (o : RunOracle) (ce : CmdEnv)
    (disk : List String) (t : String) (ht : o.tmpDir = some t)
    (hc : hasFlag ce.flag Echroot = false) :
    makeVolatileDirs o ce disk = (none, { ce with vTmpDir := t }, disk ++ [t]) := by
  unfold makeVolatileDirs
  simp only [ht]
  rw [if_neg (by rw [hc]; simp)]

theorem makeVolatileDirs_partial (o : RunOracle) (ce : CmdEnv)
    (disk : List String) (t : String) (ht : o.tmpDir = some t)
    (hc : hasFlag ce.flag Echroot = true) (hx : o.execDir = none) :
    makeVolatileDirs o ce disk =
      (some .execDirFail, { ce with vTmpDir := t }, disk ++ [t]) := by
  unfold makeVolatileDirs
  simp only [ht, hx]
  rw [if_pos hc]

theorem makeVolatileDirs_chroot (o : RunOracle) (ce : CmdEnv)
    (disk : List String) (t x : String) (ht : o.tmpDir = some t)
    (hc : hasFlag ce.flag Echroot = true) (hx : o.execDir = some x) :
    makeVolatileDirs o ce disk =
      (none, { ce with vTmpDir := t, vExecDir := x }, disk ++ [t] ++ [x]) := by
  unfold makeVolatileDirs
  simp only [ht, hx]
  rw [if_pos hc]

theorem not_mem_removeOne (dir : String) (disk : List String) (h : dir ≠ "") :
    dir ∉ removeOne dir disk := by
  unfold removeOne
  rw [if_pos h]
  simp [List.mem_filter]

theorem removeOne_subset (dir : String) (disk : List String) :
    ∀ d ∈ removeOne dir disk, d ∈ disk := by
  unfold removeOne
  intro d hd
  by_cases h : dir ≠ ""
  · rw [if_pos h] at hd
    exact (List.mem_filter.mp hd).1
  · rw [if_neg h] at hd
    exact hd

theorem tmp_not_mem_remove (ce : CmdEnv) (disk : List String)
    (h : ce.vTmpDir ≠ "") : ce.vTmpDir ∉ removeVolatileDirs ce disk := by
  unfold removeVolatileDirs
  intro hmem
  exact not_mem_removeOne ce.vTmpDir disk h
    (removeOne_subset ce.vExecDir _ _ hmem)

theorem exec_not_mem_remove (ce : CmdEnv) (disk : List String)
    (h : ce.vExecDir ≠ "") : ce.vExecDir ∉ removeVolatileDirs ce disk := by
  unfold removeVolatileDirs
  exact not_mem_removeOne ce.vExecDir _ h

theorem runCmd_of_dirs_err (p : Paths) (o : RunOracle) (ce0 : CmdEnv)
    (disk0 : List String) (e : RunErr) (ce1 : CmdEnv) (disk1 : List String)
    (h : makeVolatileDirs o (runCmdInit p ce0) disk0 = (some e, ce1, disk1)) :
    runCmd p o ce0 disk0 = ⟨some e, ce1, disk1, 0⟩ := by
  unfold runCmd
  rw [h]

theorem runCmd_of_dirs_ok (p : Paths) (o : RunOracle) (ce0 : CmdEnv)
    (disk0 : List String) (ce1 : CmdEnv) (disk1 : List String)
    (h : makeVolatileDirs o (runCmdInit p ce0) disk0 = (none, ce1, disk1)) :
    runCmd p o ce0 disk0 = runCmdAfterDirs p o ce1 disk1 := by
  unfold runCmd
  rw [h]

/-! Equation lemmas for the `MakeArgs` stages. -/

theorem chrootStage_eq (p : Paths) (ce : CmdEnv) (a0 : String) (t : List String)
    (cp : String) (h1 : hasFlag ce.flag Echroot = true) (h2 : ce.chrootDir ≠ "")
    (h3 : ce.path ≠ "") (h4 : ce.args = a0 :: t)
    (hcp : p.lookPath "chroot" = some cp) :
    makeArgsChrootStage p ce =
      .ok { ce with path := cp, args := cp :: ce.chrootDir :: ce.path :: t } := by
  unfold makeArgsChrootStage
  rw [if_pos h1, if_neg h2]
  simp only [hcp, h4]
  rw [if_pos h3]

theorem fakerootStage_save_eq (p : Paths) (ce : CmdEnv) (fp : String)
    (h1 : hasFlag ce.flag Efakeroot = true) (h2 : ce.fakerootSaveFile ≠ "")
    (hfp : p.lookPath "fakeroot" = some fp) :
    makeArgsFakerootStage p ce =
      .ok { ce with
        path := fp,
        args := fp :: "-s" :: ce.fakerootSaveFile :: "-i" ::
          ce.fakerootSaveFile :: "--" :: ce.args } := by
  unfold makeArgsFakerootStage
  rw [if_pos h1]
  simp only [hfp]
  rw [if_pos h2]

theorem fakechrootStage_eq (p : Paths) (ce : CmdEnv) (fcp : String)
    (h1 : hasFlag ce.flag Efakechroot = true)
    (hfcp : p.lookPath "fakechroot" = some fcp) :
    makeArgsFakechrootStage p ce =
      .ok { ce with
        path := fcp,
        args := fcp :: "--environment" :: "debootstrap" :: "--" :: ce.args } := by
  unfold makeArgsFakechrootStage
  rw [if_pos h1]
  simp only [hfcp]

theorem chrootStage_skip (p : Paths) (ce : CmdEnv)
    (h : hasFlag ce.flag Echroot = false) : makeArgsChrootStage p ce = .ok ce := by
  unfold makeArgsChrootStage
  rw [if_neg (by rw [h]; simp)]

theorem fakerootStage_skip (p : Paths) (ce : CmdEnv)
    (h : hasFlag ce.flag Efakeroot = false) :
    makeArgsFakerootStage p ce = .ok ce := by
  unfold makeArgsFakerootStage
  rw [if_neg (by rw [h]; simp)]

theorem fakechrootStage_skip (p : Paths) (ce : CmdEnv)
    (h : hasFlag ce.flag Efakechroot = false) :
    makeArgsFakechrootStage p ce = .ok ce := by
  unfold makeArgsFakechrootStage
  rw [if_neg (by rw [h]; simp)]

/-! Error shapes of the `MakeArgs` stages. -/

theorem chrootStage_err_not_config (p : Paths) (ce : CmdEnv) (e : ArgsErr)
    (hne : ce.chrootDir ≠ "") (h : makeArgsChrootStage p ce = .error e) :
    e ≠ .chrootUndefined := by
  unfold makeArgsChrootStage at h
  by_cases h1 : hasFlag ce.flag Echroot = true
  · rw [if_pos h1, if_neg hne] at h
    split at h
    · obtain rfl := (Except.error.inj h).symm
      intro hcontra
      exact ArgsErr.noConfusion hcontra
    · exact Except.noConfusion h
  · rw [if_neg h1] at h
    exact Except.noConfusion h

theorem fakerootStage_err_shape (p : Paths) (ce : CmdEnv) (e : ArgsErr)
    (h : makeArgsFakerootStage p ce = .error e) : e = .lookFail "fakeroot" := by
  unfold makeArgsFakerootStage at h
  by_cases h1 : hasFlag ce.flag Efakeroot = true
  · rw [if_pos h1] at h
    split at h
    · exact (Except.error.inj h).symm
    · by_cases h2 : ce.fakerootSaveFile ≠ ""
      · rw [if_pos h2] at h
        exact Except.noConfusion h
      · rw [if_neg h2] at h
        exact Except.noConfusion h
  · rw [if_neg h1] at h
    exact Except.noConfusion h

theorem fakechrootStage_err_shape (p : Paths) (ce : CmdEnv) (e : ArgsErr)
    (h : makeArgsFakechrootStage p ce = .error e) : e = .lookFail "fakechroot" := by
  unfold makeArgsFakechrootStage at h
  by_cases h1 : hasFlag ce.flag Efakechroot = true
  · rw [if_pos h1] at h
    split at h
    · exact (Except.error.inj h).symm
    · exact Except.noConfusion h
  · rw [if_neg h1] at h
    exact Except.noConfusion h

theorem makeArgs_err_not_config (p : Paths) (ce : CmdEnv) (e : ArgsErr)
    (hne : ce.chrootDir ≠ "") (h : makeArgs p ce = .error e) :
    e ≠ .chrootUndefined := by
  unfold makeArgs at h
  split at h
  · rename_i e1 h1
    obtain rfl := Except.error.inj h
    exact chrootStage_err_not_config p ce e1 hne h1
  · rename_i ce1 h1
    split at h
    · rename_i e2 h2
      obtain rfl := Except.error.inj h
      rw [fakerootStage_err_shape p ce1 e2 h2]
      intro hcontra
      exact ArgsErr.noConfusion hcontra
    · rename_i ce2 h2
      rw [fakechrootStage_err_shape p ce2 e h]
      intro hcontra
      exact ArgsErr.noConfusion hcontra

theorem copyStage_err_shape (p : Paths) (o : RunOracle) (ce : CmdEnv)
    (e : RunErr) (h : copyStage p o ce = .error e) : e = .copyFail := by
  unfold copyStage at h
  by_cases h1 : (hasFlag ce.flag Echroot && !hasFlag ce.flag Edirectexec) = true
  · rw [if_pos h1] at h
    by_cases h2 : o.copyOk = true
    · rw [if_pos h2] at h
      exact Except.noConfusion h
    · rw [if_neg h2] at h
      exact (Except.error.inj h).symm
  · rw [if_neg h1] at h
    exact Except.noConfusion h

theorem drainStage_not_args (o : RunOracle) (ce : CmdEnv) (e : ArgsErr) :
    drainStage o ce ≠ some (.argsErr e) := by
  unfold drainStage
  split_ifs <;> simp

theorem runCmdBody_err_not_config (p : Paths) (o : RunOracle) (ce : CmdEnv)
    (hne : ce.chrootDir ≠ "") :
    (runCmdBody p o ce).1 ≠ some (.argsErr .chrootUndefined) := by
  unfold runCmdBody
  cases hc : copyStage p o ce with
  | error e =>
    rw [copyStage_err_shape p o ce e hc]
    simp
  | ok ce1 =>
    have hne1 : ce1.chrootDir ≠ "" := by
      rw [(copyStage_core p o ce ce1 hc).1.2.2.1]
      exact hne
    show (bodyAfterCopy p o ce1).1 ≠ some (RunErr.argsErr ArgsErr.chrootUndefined)
    unfold bodyAfterCopy
    cases hs : setEnv p ce1 o.persist with
    | error e => simp
    | ok ce2 =>
      have hne2 : ce2.chrootDir ≠ "" := by
        rw [(setEnv_core p ce1 o.persist ce2 hs).1.2.2.1]
        exact hne1
      show (bodyAfterEnv p o ce2).1 ≠ some (RunErr.argsErr ArgsErr.chrootUndefined)
      unfold bodyAfterEnv
      cases hm : makeArgs p ce2 with
      | error e =>
        have hnc := makeArgs_err_not_config p ce2 e hne2 hm
        simp [hnc]
      | ok ce3 =>
        show (bodyAfterArgs o ce3).1 ≠ some (RunErr.argsErr ArgsErr.chrootUndefined)
        exact drainStage_not_args o ce3 .chrootUndefined

/-! ## Success-path lemmas -/

theorem copyStage_ok_ex (p : Paths) (o : RunOracle) (ce : CmdEnv)
    (hcopy : o.copyOk = true) : ∃ ce1, copyStage p o ce = .ok ce1 := by
  unfold copyStage
  by_cases h1 : (hasFlag ce.flag Echroot && !hasFlag ce.flag Edirectexec) = true
  · rw [if_pos h1, if_pos hcopy]
    exact ⟨_, rfl⟩
  · rw [if_neg h1]
    exact ⟨ce, rfl⟩

theorem setEnv_ok_ex (p : Paths) (ce : CmdEnv) (persist : List (String × String))
    (hrel : ∀ a b, (p.rel a b).isSome = true) :
    ∃ ce2, setEnv p ce persist = .ok ce2 := by
  unfold setEnv
  by_cases h1 : hasFlag ce.flag Echroot = true
  · rw [if_pos h1]
    obtain ⟨r, hr⟩ := Option.isSome_iff_exists.mp (hrel _ _)
    rw [hr]
    exact ⟨_, rfl⟩
  · rw [if_neg h1]
    exact ⟨_, rfl⟩

theorem chrootStage_ok_ex (p : Paths) (ce : CmdEnv)
    (hlook : ∀ s, (p.lookPath s).isSome = true) (hroot : ce.chrootDir ≠ "") :
    ∃ ce1, makeArgsChrootStage p ce = .ok ce1 := by
  unfold makeArgsChrootStage
  by_cases h1 : hasFlag ce.flag Echroot = true
  · rw [if_pos h1, if_neg hroot]
    obtain ⟨cp, hcp⟩ := Option.isSome_iff_exists.mp (hlook "chroot")
    rw [hcp]
    exact ⟨_, rfl⟩
  · rw [if_neg h1]
    exact ⟨ce, rfl⟩

theorem fakerootStage_ok_ex (p : Paths) (ce : CmdEnv)
    (hlook : ∀ s, (p.lookPath s).isSome = true) :
    ∃ ce2, makeArgsFakerootStage p ce = .ok ce2 := by
  unfold makeArgsFakerootStage
  by_cases h1 : hasFlag ce.flag Efakeroot = true
  · rw [if_pos h1]
    obtain ⟨fp, hfp⟩ := Option.isSome_iff_exists.mp (hlook "fakeroot")
    simp only [hfp]
    by_cases h2 : ce.fakerootSaveFile ≠ ""
    · rw [if_pos h2]
      exact ⟨_, rfl⟩
    · rw [if_neg h2]
      exact ⟨_, rfl⟩
  · rw [if_neg h1]
    exact ⟨ce, rfl⟩

theorem fakechrootStage_ok_ex (p : Paths) (ce : CmdEnv)
    (hlook : ∀ s, (p.lookPath s).isSome = true) :
    ∃ ce3, makeArgsFakechrootStage p ce = .ok ce3 := by
  unfold makeArgsFakechrootStage
  by_cases h1 : hasFlag ce.flag Efakechroot = true
  · rw [if_pos h1]
    obtain ⟨fcp, hfcp⟩ := Option.isSome_iff_exists.mp (hlook "fakechroot")
    rw [hfcp]
    exact ⟨_, rfl⟩
  · rw [if_neg h1]
    exact ⟨ce, rfl⟩

theorem makeArgs_ok_ex (p : Paths) (ce : CmdEnv)
    (hlook : ∀ s, (p.lookPath s).isSome = true) (hroot : ce.chrootDir ≠ "") :
    ∃ ce3, makeArgs p ce = .ok ce3 := by
  obtain ⟨ce1, h1⟩ := chrootStage_ok_ex p ce hlook hroot
  obtain ⟨ce2, h2⟩ := fakerootStage_ok_ex p ce1 hlook
  obtain ⟨ce3, h3⟩ := fakechrootStage_ok_ex p ce2 hlook
  refine ⟨ce3, ?_⟩
  unfold makeArgs
  rw [h1]
  show (match makeArgsFakerootStage p ce1 with
    | .error e => Except.error e
    | .ok ce2 => makeArgsFakechrootStage p ce2) = .ok ce3
  rw [h2]
  exact h3

theorem drainStage_eq_pipes (o : RunOracle) (ce : CmdEnv)
    (hp : o.pipeOk = true) (hso : o.stdoutPipeOk = true)
    (hse : o.stderrPipeOk = true) (hcl : o.closeOk = true) :
    drainStage o ce =
      (if o.startOk = false then some .startFail
       else if o.waitOk = false ∧ hasFlag ce.flag Eignoreexit = false then
         some .waitFail
       else none) := by
  unfold drainStage
  by_cases hi : hasFlag ce.flag Einteractive = true <;>
    by_cases hst : o.startOk = true <;>
    by_cases hw : o.waitOk = true <;>
    by_cases hig : hasFlag ce.flag Eignoreexit = true <;>
    simp [hi, hst, hw, hig, hp, hso, hse, hcl]

theorem runCmdBody_flag (p : Paths) (o : RunOracle) (ce : CmdEnv) :
    (runCmdBody p o ce).2.flag = ce.flag :=
  (runCmdBody_core p o ce).1.1

theorem runCmdBody_err_eq (p : Paths) (o : RunOracle) (ce : CmdEnv)
    (hcopy : o.copyOk = true)
    (hrel : ∀ a b, (p.rel a b).isSome = true)
    (hlook : ∀ s, (p.lookPath s).isSome = true)
    (hroot : ce.chrootDir ≠ "")
    (hp : o.pipeOk = true) (hso : o.stdoutPipeOk = true)
    (hse : o.stderrPipeOk = true) (hcl : o.closeOk = true) :
    (runCmdBody p o ce).1 =
      (if o.startOk = false then some .startFail
       else if o.waitOk = false ∧ hasFlag ce.flag Eignoreexit = false then
         some .waitFail
       else none) := by
  obtain ⟨ce1, h1⟩ := copyStage_ok_ex p o ce hcopy
  have hc1 := copyStage_core p o ce ce1 h1
  obtain ⟨ce2, h2⟩ := setEnv_ok_ex p ce1 o.persist hrel
  have hc2 := setEnv_core p ce1 o.persist ce2 h2
  have hroot2 : ce2.chrootDir ≠ "" := by
    rw [hc2.1.2.2.1, hc1.1.2.2.1]
    exact hroot
  obtain ⟨ce3, h3⟩ := makeArgs_ok_ex p ce2 hlook hroot2
  have hc3 := makeArgs_core p ce2 ce3 h3
  have hflag : ce3.flag = ce.flag := by
    rw [hc3.1.1, hc2.1.1, hc1.1.1]
  unfold runCmdBody
  rw [h1]
  show (bodyAfterCopy p o ce1).1 = _
  unfold bodyAfterCopy
  rw [h2]
  show (bodyAfterEnv p o ce2).1 = _
  unfold bodyAfterEnv
  rw [h3]
  show drainStage o ce3 = _
  rw [drainStage_eq_pipes o ce3 hp hso hse hcl, hflag]

theorem makeVolatileDirs_cases (o : RunOracle) (ce : CmdEnv) (disk : List String) :
    (o.tmpDir = none ∧ makeVolatileDirs o ce disk = (some .tmpDirFail, ce, disk)) ∨
    (∃ t, o.tmpDir = some t ∧ hasFlag ce.flag Echroot = false ∧
      makeVolatileDirs o ce disk = (none, { ce with vTmpDir := t }, disk ++ [t])) ∨
    (∃ t, o.tmpDir = some t ∧ hasFlag ce.flag Echroot = true ∧ o.execDir = none ∧
      makeVolatileDirs o ce disk =
        (some .execDirFail, { ce with vTmpDir := t }, disk ++ [t])) ∨
    (∃ t x, o.tmpDir = some t ∧ hasFlag ce.flag Echroot = true ∧
      o.execDir = some x ∧
      makeVolatileDirs o ce disk =
        (none, { ce with vTmpDir := t, vExecDir := x }, disk ++ [t] ++ [x])) := by
  cases ht : o.tmpDir with
  | none => exact Or.inl ⟨rfl, makeVolatileDirs_none o ce disk ht⟩
  | some t =>
    by_cases hc : hasFlag ce.flag Echroot = true
    · cases hx : o.execDir with
      | none =>
        exact Or.inr (Or.inr (Or.inl
          ⟨t, rfl, hc, rfl, makeVolatileDirs_partial o ce disk t ht hc hx⟩))
      | some x =>
        exact Or.inr (Or.inr (Or.inr
          ⟨t, x, rfl, hc, rfl, makeVolatileDirs_chroot o ce disk t x ht hc hx⟩))
    · exact Or.inr (Or.inl ⟨t, rfl, Bool.eq_false_iff.mpr hc,
        makeVolatileDirs_nonchroot o ce disk t ht (Bool.eq_false_iff.mpr hc)⟩)

theorem makeVolatileDirs_meta (o : RunOracle) (ce : CmdEnv) (disk : List String) :
    SameCore (makeVolatileDirs o ce disk).2.1 ce ∧
      (makeVolatileDirs o ce disk).2.1.path = ce.path ∧
      (makeVolatileDirs o ce disk).2.1.args = ce.args ∧
      (makeVolatileDirs o ce disk).2.1.env = ce.env := by
  rcases makeVolatileDirs_cases o ce disk with
    ⟨_, heq⟩ | ⟨t, _, _, heq⟩ | ⟨t, _, _, _, heq⟩ | ⟨t, x, _, _, _, heq⟩ <;>
    rw [heq] <;> exact ⟨⟨rfl, rfl, rfl, rfl⟩, rfl, rfl, rfl⟩

theorem makeVolatileDirs_err_shape (o : RunOracle) (ce : CmdEnv)
    (disk : List String) (e : RunErr) (ce1 : CmdEnv) (disk1 : List String)
    (h : makeVolatileDirs o ce disk = (some e, ce1, disk1)) :
    e = .tmpDirFail ∨ e = .execDirFail := by
  rcases makeVolatileDirs_cases o ce disk with
    ⟨_, heq⟩ | ⟨t, _, _, heq⟩ | ⟨t, _, _, _, heq⟩ | ⟨t, x, _, _, _, heq⟩ <;>
    rw [heq] at h
  · obtain ⟨h1, _⟩ := Prod.mk.injEq .. ▸ h
    simp at h
    exact Or.inl h.1.symm
  · simp at h
  · simp at h
    exact Or.inr h.1.symm
  · simp at h

theorem runCmd_core (p : Paths) (o : RunOracle) (ce0 : CmdEnv)
    (disk0 : List String) :
    SameCore (runCmd p o ce0 disk0).ce (runCmdInit p ce0) := by
  unfold runCmd
  cases hmv : makeVolatileDirs o (runCmdInit p ce0) disk0 with
  | mk fst rest =>
    obtain ⟨ce1, disk1⟩ := rest
    have hmeta := (makeVolatileDirs_meta o (runCmdInit p ce0) disk0).1
    rw [hmv] at hmeta
    cases fst with
    | none =>
      show SameCore (runCmdAfterDirs p o ce1 disk1).ce (runCmdInit p ce0)
      exact sameCore_trans (runCmdBody_core p o ce1).1 hmeta
    | some e => exact hmeta

theorem runCmd_flagEq (p : Paths) (o : RunOracle) (ce0 : CmdEnv)
    (disk0 : List String) : (runCmd p o ce0 disk0).ce.flag = ce0.flag :=
  (runCmd_core p o ce0 disk0).1

theorem runCmd_err_eq (p : Paths) (o : RunOracle) (ce0 : CmdEnv)
    (disk0 : List String) (t : String)
    (ht : o.tmpDir = some t)
    (hex : hasFlag ce0.flag Echroot = true → o.execDir ≠ none)
    (hcopy : o.copyOk = true)
    (hrel : ∀ a b, (p.rel a b).isSome = true)
    (hlook : ∀ s, (p.lookPath s).isSome = true)
    (hj : ∀ a b, b ≠ "" → p.join a b ≠ "")
    (hp : o.pipeOk = true) (hso : o.stdoutPipeOk = true)
    (hse : o.stderrPipeOk = true) (hcl : o.closeOk = true) :
    (runCmd p o ce0 disk0).err =
      (if o.startOk = false then some .startFail
       else if o.waitOk = false ∧ hasFlag ce0.flag Eignoreexit = false then
         some .waitFail
       else none) := by
  have hroot : (runCmdInit p ce0).chrootDir ≠ "" :=
    hj ce0.workDir PATHNAME_ROOTFS (by decide)
  by_cases hc : hasFlag ce0.flag Echroot = true
  · have hxn : o.execDir ≠ none := hex hc
    cases hx : o.execDir with
    | none => exact absurd hx hxn
    | some x =>
      have hmv := makeVolatileDirs_chroot o (runCmdInit p ce0) disk0 t x ht hc hx
      rw [runCmd_of_dirs_ok p o ce0 disk0 _ _ hmv]
      show (runCmdBody p o
        { runCmdInit p ce0 with vTmpDir := t, vExecDir := x }).1 = _
      exact runCmdBody_err_eq p o _ hcopy hrel hlook hroot hp hso hse hcl
  · have hc' : hasFlag ce0.flag Echroot = false := Bool.eq_false_iff.mpr hc
    have hmv := makeVolatileDirs_nonchroot o (runCmdInit p ce0) disk0 t ht hc'
    rw [runCmd_of_dirs_ok p o ce0 disk0 _ _ hmv]
    show (runCmdBody p o { runCmdInit p ce0 with vTmpDir := t }).1 = _
    exact runCmdBody_err_eq p o _ hcopy hrel hlook hroot hp hso hse hcl

/-! ## Concrete fixtures used by witnesses and counterexamples -/

/-- A concrete `Paths` oracle for witnesses: plain slash-joining, a `rel`
that always succeeds, a total search path, identity `base`. -/
def samplePaths : Paths :=
  { join := fun a b => a ++ "/" ++ b,
    rel := fun _ b => some b,
    lookPath := fun s => some ("/usr/sbin/" ++ s),
    base := fun s => s }

theorem samplePaths_join_ne (a b : String) (hb : b ≠ "") :
    samplePaths.join a b ≠ "" := by
  show a ++ "/" ++ b ≠ ""
  intro h
  have hlen : (a ++ "/" ++ b).length = 0 := by rw [h]; rfl
  rw [String.length_append, String.length_append] at hlen
  have h1 : ("/" : String).length = 1 := rfl
  have hb0 : b.length ≠ 0 := fun h0 => hb (by
    cases b with
    | mk data =>
      cases data with
      | nil => rfl
      | cons c cs => simp [String.length] at h0)
  omega

/-! ## Claim theorems -/

/-- C9: the NUL-delimited tokenizer (`scanNull` driven by the Scanner loop)
delivers a final non-empty chunk that is not NUL-terminated as a record
exactly as if it had been NUL-terminated: for every input byte sequence the
token list equals split-on-NUL with a single trailing empty segment
dropped, and concretely a NUL-free non-empty tail yields the same single
record with or without a trailing NUL. -/
theorem C9_scanNull_tokens :
    (∀ data : List Char, scanTokens data = dropTrailingEmpty (splitNul data)) ∧
    (∀ data : List Char, nulC ∉ data → data ≠ [] →
      scanTokens data = [data] ∧ scanTokens (data ++ [nulC]) = [data]) := by
  refine ⟨scanTokens_eq_splitNul, fun data hn hne => ⟨?_, ?_⟩⟩
  · rw [scanTokens_of_some data data.length data
      (scanNull_none_split data hne ((splitOnce_eq_none_iff nulC data).mpr hn))]
    rw [List.drop_length, scanTokens_of_none [] 0 scanNull_nil_eof]
  · have hsp : splitOnce nulC (data ++ nulC :: []) = some (data, []) :=
      splitOnce_append nulC data [] hn
    rw [scanTokens_of_some (data ++ [nulC]) (data.length + 1) data
      (scanNull_some_split (data ++ [nulC]) data [] hsp)]
    have hdrop : (data ++ [nulC]).drop (data.length + 1) = [] := by
      rw [show data ++ [nulC] = data ++ nulC :: [] from rfl]
      exact drop_after_sep data []
    rw [hdrop, scanTokens_of_none [] 0 scanNull_nil_eof]

/-- C9 witness: concrete evaluation on `a NUL b NUL c` without a trailing
NUL — three records, the last taking effect without termination. -/
theorem C9_scanNull_tokens_witness :
    scanTokens ("abc".toList) = ["abc".toList] ∧
    scanTokens ("abc".toList ++ [nulC]) = ["abc".toList] := by
  exact (C9_scanNull_tokens.2 ("abc".toList) (by decide) (by decide))

/-- C4: `handleChildData` with category `setenv` inserts or overwrites the
key in the persistent store, `unsetenv` removes it (ignoring the value
field), any other category leaves the store unchanged, and the
setenv-then-unsetenv round trip holds from any store state. -/
theorem C4_handleChildData :
    (∀ (m : EnvMap) (k v k' : String),
      envGet (handleChildData ⟨"setenv", k, v⟩ m) k' =
        if k' = k then some v else envGet m k') ∧
    (∀ (m : EnvMap) (k w k' : String),
      envGet (handleChildData ⟨"unsetenv", k, w⟩ m) k' =
        if k' = k then none else envGet m k') ∧
    (∀ (cd : ChildData) (m : EnvMap),
      cd.category ≠ "setenv" → cd.category ≠ "unsetenv" →
      handleChildData cd m = m) ∧
    (∀ (m : EnvMap) (k v w : String),
      envGet (handleChildData ⟨"setenv", k, v⟩ m) k = some v ∧
      envGet (handleChildData ⟨"unsetenv", k, w⟩
        (handleChildData ⟨"setenv", k, v⟩ m)) k = none) := by
  have hset : ∀ (m : EnvMap) (k v : String),
      handleChildData ⟨"setenv", k, v⟩ m = envSet m k v := by
    intro m k v
    unfold handleChildData
    rw [if_pos rfl]
  have hunset : ∀ (m : EnvMap) (k w : String),
      handleChildData ⟨"unsetenv", k, w⟩ m = envDel m k := by
    intro m k w
    unfold handleChildData
    have hne : ("unsetenv" : String) ≠ "setenv" := by decide
    rw [if_neg hne, if_pos rfl]
  refine ⟨?_, ?_, ?_, ?_⟩
  · intro m k v k'
    rw [hset]
    by_cases hk : k' = k
    · subst hk
      rw [if_pos rfl]
      exact envGet_set_self m k' v
    · rw [if_neg hk]
      exact envGet_set_other m k v k' hk
  · intro m k w k'
    rw [hunset]
    by_cases hk : k' = k
    · subst hk
      rw [if_pos rfl]
      exact envGet_del_self m k'
    · rw [if_neg hk]
      exact envGet_del_other m k k' hk
  · intro cd m h1 h2
    unfold handleChildData
    rw [if_neg h1, if_neg h2]
  · intro m k v w
    refine ⟨?_, ?_⟩
    · rw [hset]
      exact envGet_set_self m k v
    · rw [hunset, hset]
      exact envGet_del_self _ k

/-- C4 witness: the spec's round trip at a concrete store. -/
theorem C4_handleChildData_witness :
    envGet (handleChildData ⟨"setenv", "FOO", "bar"⟩ [("A", "1")]) "FOO" =
      some "bar" ∧
    envGet (handleChildData ⟨"unsetenv", "FOO", ""⟩
      (handleChildData ⟨"setenv", "FOO", "bar"⟩ [("A", "1")])) "FOO" = none :=
  C4_handleChildData.2.2.2 [("A", "1")] "FOO" "bar" ""

/-- C2: the decoder body of `readPipe` splits each NUL-delimited chunk on
the unit separator with `SplitN(., 3)` and hands `ChildData` to the handler
when three fields are present (remainder in the value field); for a chunk
with fewer than three fields it indexes past the end of the split result
and panics (modelled by `none`) instead of raising a recoverable
`DecodeError`. -/
theorem C2_readPipe_decode :
    decodeChunk ("setenv".toList ++ usC :: "FOO".toList) = none ∧
    (∀ c k rest : List Char, usC ∉ c → usC ∉ k →
      decodeChunk (c ++ usC :: (k ++ usC :: rest)) =
        some ⟨⟨c⟩, ⟨k⟩, ⟨rest⟩⟩) ∧
    (∀ chunk : List Char, usC ∉ chunk → decodeChunk chunk = none) := by
  refine ⟨?_, ?_, ?_⟩
  · unfold decodeChunk
    rw [goSplitN_of_one_sep ("setenv".toList) ("FOO".toList) (by decide) (by decide)]
  · intro c k rest hc hk
    unfold decodeChunk
    rw [goSplitN_three_of_two_seps c k rest hc hk]
  · intro chunk h
    unfold decodeChunk
    rw [goSplitN_of_no_sep chunk h]

/-- C2 witness: a well-formed three-field record decodes into the
`ChildData` handed to the handler. -/
theorem C2_readPipe_decode_witness :
    decodeChunk ("setenv".toList ++ usC :: ("FOO".toList ++ usC :: "bar".toList)) =
      some ⟨"setenv", "FOO", "bar"⟩ :=
  C2_readPipe_decode.2.1 ("setenv".toList) ("FOO".toList) ("bar".toList)
    (by decide) (by decide)

theorem makeArgs_eq_of_stages (p : Paths) (ce ce1 ce2 ce3 : CmdEnv)
    (h1 : makeArgsChrootStage p ce = .ok ce1)
    (h2 : makeArgsFakerootStage p ce1 = .ok ce2)
    (h3 : makeArgsFakechrootStage p ce2 = .ok ce3) :
    makeArgs p ce = .ok ce3 := by
  unfold makeArgs
  rw [h1]
  show (match makeArgsFakerootStage p ce1 with
    | .error e => Except.error e
    | .ok ce2 => makeArgsFakechrootStage p ce2) = .ok ce3
  rw [h2]
  exact h3

/-- C3: for a request whose flag set contains chroot, fakeroot and
fakechroot (as every `C`-flagged request does), with nonempty chroot root,
save file, path and argv, `MakeArgs` rewrites the path to the resolved
`fakechroot` location and the argv to exactly
`[fakechroot, --environment, debootstrap, --, fakeroot, -s, save, -i, save,
--, chroot, root, original path, original args...]`; with chroot alone the
path becomes the resolved `chroot` location and the argv
`[chroot, root, original path, original args...]`; no field other than
path and argv changes (the result is a `with`-update of the input). -/
theorem C3_makeArgs :
    (∀ (p : Paths) (ce : CmdEnv) (a0 : String) (t : List String)
      (cp fp fcp : String),
      hasFlag ce.flag Echroot = true → hasFlag ce.flag Efakeroot = true →
      hasFlag ce.flag Efakechroot = true →
      ce.chrootDir ≠ "" → ce.fakerootSaveFile ≠ "" → ce.path ≠ "" →
      ce.args = a0 :: t →
      p.lookPath "chroot" = some cp → p.lookPath "fakeroot" = some fp →
      p.lookPath "fakechroot" = some fcp →
      makeArgs p ce = .ok { ce with
        path := fcp,
        args := fcp :: "--environment" :: "debootstrap" :: "--" ::
          fp :: "-s" :: ce.fakerootSaveFile :: "-i" :: ce.fakerootSaveFile ::
          "--" :: cp :: ce.chrootDir :: ce.path :: t }) ∧
    (∀ (p : Paths) (ce : CmdEnv) (a0 : String) (t : List String) (cp : String),
      hasFlag ce.flag Echroot = true → hasFlag ce.flag Efakeroot = false →
      hasFlag ce.flag Efakechroot = false →
      ce.chrootDir ≠ "" → ce.path ≠ "" → ce.args = a0 :: t →
      p.lookPath "chroot" = some cp →
      makeArgs p ce = .ok { ce with
        path := cp, args := cp :: ce.chrootDir :: ce.path :: t }) := by
  constructor
  · intro p ce a0 t cp fp fcp hch hfr hfc hroot hsave hpath hargs hcp hfp hfcp
    exact makeArgs_eq_of_stages p ce _ _ _
      (chrootStage_eq p ce a0 t cp hch hroot hpath hargs hcp)
      (fakerootStage_save_eq p
        { ce with path := cp, args := cp :: ce.chrootDir :: ce.path :: t }
        fp hfr hsave hfp)
      (fakechrootStage_eq p _ fcp hfc hfcp)
  · intro p ce a0 t cp hch hfr hfc hroot hpath hargs hcp
    exact makeArgs_eq_of_stages p ce _ _ _
      (chrootStage_eq p ce a0 t cp hch hroot hpath hargs hcp)
      (fakerootStage_skip p _ hfr)
      (fakechrootStage_skip p _ hfc)

def c3req : CmdEnv :=
  { path := "/w/build.d/10-C-x", args := ["/w/build.d/10-C-x", "arg1"],
    flag := Echroot ||| Efakeroot ||| Efakechroot, workDir := "/w",
    chrootDir := "/w/rootfs", fakerootSaveFile := "/w/fakeroot.save" }

/-- C3 witness: the full chroot-mode invocation at concrete values. -/
theorem C3_makeArgs_witness :
    makeArgs samplePaths c3req = .ok { c3req with
      path := "/usr/sbin/fakechroot",
      args := ["/usr/sbin/fakechroot", "--environment", "debootstrap", "--",
        "/usr/sbin/fakeroot", "-s", "/w/fakeroot.save", "-i",
        "/w/fakeroot.save", "--", "/usr/sbin/chroot", "/w/rootfs",
        "/w/build.d/10-C-x", "arg1"] } := by
  have h := C3_makeArgs.1 samplePaths c3req "/w/build.d/10-C-x" ["arg1"]
    "/usr/sbin/chroot" "/usr/sbin/fakeroot" "/usr/sbin/fakechroot"
    (by decide) (by decide) (by decide) (by decide) (by decide) (by decide)
    rfl rfl rfl rfl
  exact h

/-- C7: every flag-letter group containing `C` parses to a flag set that
contains chroot, fakeroot and fakechroot; every parsed flag set satisfies
the invariant chroot ⟹ fakeroot ∧ fakechroot; and the flag field is never
mutated after parsing — `RunCmd` and `MakeArgs` return it unchanged. -/
theorem C7_flagInvariant :
    (∀ ls : List Char, 'C' ∈ ls →
      hasFlag (parseFlags ls) Echroot = true ∧
      hasFlag (parseFlags ls) Efakeroot = true ∧
      hasFlag (parseFlags ls) Efakechroot = true) ∧
    (∀ ls : List Char, hasFlag (parseFlags ls) Echroot = true →
      hasFlag (parseFlags ls) Efakeroot = true ∧
      hasFlag (parseFlags ls) Efakechroot = true) ∧
    (∀ (p : Paths) (o : RunOracle) (ce0 : CmdEnv) (disk0 : List String),
      (runCmd p o ce0 disk0).ce.flag = ce0.flag) ∧
    (∀ (p : Paths) (ce ce' : CmdEnv), makeArgs p ce = .ok ce' →
      ce'.flag = ce.flag) := by
  refine ⟨?_, ?_, ?_, ?_⟩
  · intro ls hC
    obtain ⟨l1, l2, rfl⟩ := List.append_of_mem hC
    unfold parseFlags
    rw [List.foldl_append]
    show _ ∧ _ ∧ _
    have hsets := flagStep_C_sets (List.foldl flagStep 0 l1)
    have hfold : List.foldl flagStep (List.foldl flagStep 0 l1) ('C' :: l2) =
        List.foldl flagStep (flagStep (List.foldl flagStep 0 l1) 'C') l2 := rfl
    rw [hfold]
    exact ⟨foldl_flagStep_mono l2 _ _ hsets.1,
      foldl_flagStep_mono l2 _ _ hsets.2.1,
      foldl_flagStep_mono l2 _ _ hsets.2.2⟩
  · intro ls
    exact foldl_flagStep_chroot_inv ls 0 (fun h => absurd h (by decide))
  · intro p o ce0 disk0
    exact runCmd_flagEq p o ce0 disk0
  · intro p ce ce' h
    exact (makeArgs_core p ce ce' h).1.1

/-- C7 witness: concrete letter groups and a concrete `MakeArgs` run. -/
theorem C7_flagInvariant_witness :
    (hasFlag (parseFlags ("ICE".toList)) Echroot = true ∧
      hasFlag (parseFlags ("ICE".toList)) Efakeroot = true ∧
      hasFlag (parseFlags ("ICE".toList)) Efakechroot = true) ∧
    (runCmd samplePaths
      ⟨some "T", none, true, true, true, true, true, true, true, []⟩
      { } []).ce.flag = ({ } : CmdEnv).flag := by
  exact ⟨C7_flagInvariant.1 ("ICE".toList) (by decide),
    C7_flagInvariant.2.2.1 samplePaths _ { } []⟩

/-- C8 counterexample: a filename whose leading digit run exceeds the
signed 64-bit range matches the grammar with value ≥ seqmin = 0 and has no
`S` flag, yet `PrepareParts` excludes it, because `strconv.Atoi` fails with
a range error and the entry is skipped. -/
theorem C8_counterexample :
    SpecKeepClaim 0 ("9999999999999999999999-A-x".toList) ∧
    prepareParts samplePaths "d" ["9999999999999999999999-A-x"] 0 = [] := by
  constructor
  · refine ⟨"9999999999999999999999".toList, "A".toList, "x".toList,
      ⟨by decide, by decide, by decide, by decide⟩, by decide, by decide⟩
  · decide

/-- C8 (amended): `PrepareParts` returns, in directory-enumeration order,
exactly the entries accepted by `keepName`, and acceptance is equivalent to:
the name matches `^(\d+)-([A-Z]*)-`, the digit run (as a base-10 integer)
fits in a signed 64-bit int, is at least `seqmin`, and the flag letters do
not include `S` — entries failing any of these are dropped without error,
and unrecognized letters do not exclude an entry. -/
theorem C8_prepareParts :
    ∀ (p : Paths) (dir : String) (files : List String) (seqmin : Int),
      prepareParts p dir files seqmin =
        (files.filter (fun nm => keepName seqmin nm.toList)).map (mkCmdEnv p dir) ∧
      (∀ n : List Char, keepName seqmin n = true ↔ SpecKeep64 seqmin n) :=
  fun p dir files seqmin =>
    ⟨prepareParts_eq_filter p dir files seqmin,
      fun n => keepName_iff_SpecKeep64 seqmin n⟩

def c1req : CmdEnv :=
  { path := "/w/build.d/10-C-x", args := ["/w/build.d/10-C-x"],
    flag := Echroot ||| Efakeroot ||| Efakechroot, workDir := "/w" }

def c1oracle : RunOracle :=
  ⟨some "/w/rootfs/.volatile.1", none, true, true, true, true, true, true,
    true, []⟩

def c1okOracle : RunOracle :=
  ⟨some "/w/rootfs/.volatile.1", some "/w/rootfs/.exec.1", true, true, true,
    true, true, true, true, []⟩

/-- C1 counterexample: in chroot mode, when the temp directory is created
but the exec-staging directory creation fails, `RunCmd` returns before the
`defer ce.RemoveVolatileDirs()` statement is reached — the release never
runs and the already-created temp directory is still on disk, contradicting
the claim that it is removed. -/
theorem C1_counterexample :
    (runCmd samplePaths c1oracle c1req []).releases = 0 ∧
    "/w/rootfs/.volatile.1" ∈ (runCmd samplePaths c1oracle c1req []).disk ∧
    (runCmd samplePaths c1oracle c1req []).err = some RunErr.execDirFail := by
  decide

/-- C1 (amended): once `MakeVolatileDirs` has returned successfully, the
deferred release runs exactly once on every exit path of `RunCmd` (success,
process failure, or any later setup failure), and afterwards neither the
temp directory nor (in chroot mode) the exec-staging directory is on disk;
but when `MakeVolatileDirs` fails after creating the temp directory and
before the exec-staging directory (chroot mode), the release does not run
and the temp directory remains on disk. -/
theorem C1_release :
    (∀ (p : Paths) (o : RunOracle) (ce0 : CmdEnv) (disk0 : List String)
      (t : String),
      o.tmpDir = some t → t ≠ "" →
      (∀ x, o.execDir = some x → x ≠ "") →
      (hasFlag ce0.flag Echroot = true → o.execDir ≠ none) →
      (runCmd p o ce0 disk0).releases = 1 ∧
      (runCmd p o ce0 disk0).ce.vTmpDir ∉ (runCmd p o ce0 disk0).disk ∧
      (hasFlag ce0.flag Echroot = true →
        (runCmd p o ce0 disk0).ce.vExecDir ∉ (runCmd p o ce0 disk0).disk)) ∧
    (∀ (p : Paths) (o : RunOracle) (ce0 : CmdEnv) (disk0 : List String)
      (t : String),
      hasFlag ce0.flag Echroot = true → o.tmpDir = some t → o.execDir = none →
      (runCmd p o ce0 disk0).releases = 0 ∧
      t ∈ (runCmd p o ce0 disk0).disk ∧
      (runCmd p o ce0 disk0).err = some RunErr.execDirFail) := by
  constructor
  · intro p o ce0 disk0 t ht htne hxne hex
    by_cases hc : hasFlag ce0.flag Echroot = true
    · have hxn : o.execDir ≠ none := hex hc
      cases hx : o.execDir with
      | none => exact absurd hx hxn
      | some x =>
        have hxne' : x ≠ "" := hxne x hx
        have hmv := makeVolatileDirs_chroot o (runCmdInit p ce0) disk0 t x ht hc hx
        rw [runCmd_of_dirs_ok p o ce0 disk0 _ _ hmv]
        refine ⟨rfl, ?_, fun _ => ?_⟩
        · exact tmp_not_mem_remove _ _ (by
            rw [(runCmdBody_core p o _).2.1]
            exact htne)
        · exact exec_not_mem_remove _ _ (by
            rw [(runCmdBody_core p o _).2.2]
            exact hxne')
    · have hmv := makeVolatileDirs_nonchroot o (runCmdInit p ce0) disk0 t ht
        (Bool.eq_false_iff.mpr hc)
      rw [runCmd_of_dirs_ok p o ce0 disk0 _ _ hmv]
      refine ⟨rfl, ?_, fun hcc => absurd hcc hc⟩
      exact tmp_not_mem_remove _ _ (by
        rw [(runCmdBody_core p o _).2.1]
        exact htne)
  · intro p o ce0 disk0 t hc ht hx
    have hmv := makeVolatileDirs_partial o (runCmdInit p ce0) disk0 t ht hc hx
    rw [runCmd_of_dirs_err p o ce0 disk0 _ _ _ hmv]
    exact ⟨rfl, by simp, rfl⟩

/-- C1 witness: the amended theorem at concrete values — full allocation
releases once; partial allocation releases zero times. -/
theorem C1_release_witness :
    (runCmd samplePaths c1okOracle c1req []).releases = 1 ∧
    (runCmd samplePaths c1oracle c1req []).releases = 0 := by
  refine ⟨(C1_release.1 samplePaths c1okOracle c1req [] "/w/rootfs/.volatile.1"
      rfl (by decide) ?_ ?_).1,
    (C1_release.2 samplePaths c1oracle c1req [] "/w/rootfs/.volatile.1"
      (by decide) rfl rfl).1⟩
  · intro x hx
    rw [← Option.some.inj hx]
    decide
  · intro _
    decide

def c6req : CmdEnv :=
  { path := "/w/build.d/20-E-x", args := ["/w/build.d/20-E-x"],
    flag := Eignoreexit, workDir := "/w" }

def c6oracle : RunOracle :=
  ⟨some "/w/tmp/.volatile.1", none, true, true, true, true, false, true,
    true, []⟩

/-- C6 counterexample: a request carrying ignore-exit whose process fails
to start — `ce.Start`'s error returns early, before the ignore-exit
downgrade at the bottom of `RunCmd`, so `RunCmd` still returns an error,
contradicting the claim that a start failure is downgraded to success. -/
theorem C6_counterexample :
    (runCmd samplePaths c6oracle c6req []).err = some RunErr.startFail := by
  decide

/-- C6 (amended): with setup succeeding, `RunCmd` returns success exactly
when the process starts and either exits zero or the request carries
ignore-exit — the ignore-exit downgrade applies only to the `Wait` (exit)
error, while a start failure propagates even with ignore-exit; and the
`cmdBuild` sequencer halts at the first request whose `RunCmd` returns an
error, before starting any later request. -/
theorem C6_exitPolicy :
    (∀ (p : Paths) (o : RunOracle) (ce0 : CmdEnv) (disk0 : List String)
      (t : String),
      o.tmpDir = some t →
      (hasFlag ce0.flag Echroot = true → o.execDir ≠ none) →
      o.copyOk = true → (∀ a b, (p.rel a b).isSome = true) →
      (∀ s, (p.lookPath s).isSome = true) →
      (∀ a b, b ≠ "" → p.join a b ≠ "") →
      o.pipeOk = true → o.stdoutPipeOk = true → o.stderrPipeOk = true →
      o.closeOk = true →
      (((runCmd p o ce0 disk0).err = none ↔
        (o.startOk = true ∧
          (o.waitOk = true ∨ hasFlag ce0.flag Eignoreexit = true))) ∧
       (o.startOk = false →
        (runCmd p o ce0 disk0).err = some RunErr.startFail))) ∧
    (∀ (run : CmdEnv → Option RunErr) (l1 l2 : List CmdEnv) (x : CmdEnv)
      (e : RunErr),
      (∀ a ∈ l1, run a = none) → run x = some e →
      cmdBuildSeq run (l1 ++ x :: l2) = (l1 ++ [x], some e)) := by
  constructor
  · intro p o ce0 disk0 t ht hex hcopy hrel hlook hj hp hso hse hcl
    have herr := runCmd_err_eq p o ce0 disk0 t ht hex hcopy hrel hlook hj
      hp hso hse hcl
    refine ⟨?_, ?_⟩ <;> rw [herr]
    · cases hst : o.startOk <;> cases hw : o.waitOk <;>
        cases hig : hasFlag ce0.flag Eignoreexit <;>
        simp [hst, hw, hig]
    · intro hsf
      rw [if_pos hsf]
  · intro run l1 l2 x e
    induction l1 with
    | nil =>
      intro _ hx
      show cmdBuildSeq run (x :: l2) = ([x], some e)
      unfold cmdBuildSeq
      simp only [hx]
    | cons a l1' ih =>
      intro h1 hx
      have ha : run a = none := h1 a (List.mem_cons_self a l1')
      show cmdBuildSeq run (a :: (l1' ++ x :: l2)) = ((a :: l1') ++ [x], some e)
      unfold cmdBuildSeq
      simp only [ha]
      rw [ih (fun b hb => h1 b (List.mem_cons_of_mem a hb)) hx]
      rfl

def w6req : CmdEnv := { path := "/s", args := ["/s"], workDir := "/w" }

def w6oracle : RunOracle :=
  ⟨some "T", none, true, true, true, true, true, true, true, []⟩

/-- C6 witness: a fully-successful run returns success, and a sequencer
over one failing request halts with that error. -/
theorem C6_exitPolicy_witness :
    (runCmd samplePaths w6oracle w6req []).err = none ∧
    cmdBuildSeq (fun _ => (some RunErr.startFail : Option RunErr)) [w6req] =
      ([w6req], some RunErr.startFail) := by
  refine ⟨?_, ?_⟩
  · exact (C6_exitPolicy.1 samplePaths w6oracle w6req [] "T" rfl
      (fun h => absurd h (by decide)) rfl (fun a b => rfl) (fun s => rfl)
      samplePaths_join_ne rfl rfl rfl rfl).1.mpr ⟨rfl, Or.inl rfl⟩
  · exact C6_exitPolicy.2 (fun _ => some RunErr.startFail) [] [] w6req
      RunErr.startFail (fun a ha => absurd ha (List.not_mem_nil a)) rfl

theorem fakerootStage_ok_save_shape (p : Paths) (ce ce2 : CmdEnv)
    (h1 : hasFlag ce.flag Efakeroot = true) (h2 : ce.fakerootSaveFile ≠ "")
    (h : makeArgsFakerootStage p ce = .ok ce2) :
    ∃ fp, p.lookPath "fakeroot" = some fp ∧
      ce2.args = fp :: "-s" :: ce.fakerootSaveFile :: "-i" ::
        ce.fakerootSaveFile :: "--" :: ce.args := by
  unfold makeArgsFakerootStage at h
  rw [if_pos h1] at h
  split at h
  · exact Except.noConfusion h
  · rename_i fp hfp
    rw [if_pos h2] at h
    obtain rfl := Except.ok.inj h
    exact ⟨fp, hfp, rfl⟩

theorem fakechrootStage_ok_args (p : Paths) (ce r : CmdEnv)
    (h : makeArgsFakechrootStage p ce = .ok r) :
    r.args = ce.args ∨
      ∃ fcp, r.args = fcp :: "--environment" :: "debootstrap" :: "--" :: ce.args := by
  unfold makeArgsFakechrootStage at h
  by_cases h1 : hasFlag ce.flag Efakechroot = true
  · rw [if_pos h1] at h
    split at h
    · exact Except.noConfusion h
    · rename_i fcp hfcp
      obtain rfl := Except.ok.inj h
      exact Or.inr ⟨fcp, rfl⟩
  · rw [if_neg h1] at h
    obtain rfl := Except.ok.inj h
    exact Or.inl rfl

/-- C10: `RunCmd` unconditionally overwrites the request's chroot root with
`workDir/rootfs` and its fakeroot save file with `workDir/fakeroot.save`
before composing arguments, so both fields are nonempty for every request
executed through `RunCmd`, the "chroot dir not defined" error branch of
`MakeArgs` is unreachable from `RunCmd`, and whenever the fakeroot wrapper
is applied with a nonempty save file the `[fakeroot, -s, save, -i, save,
--]` variant is produced — never the no-save `[fakeroot, --]` variant. -/
theorem C10_chrootSetup :
    ∀ (p : Paths) (o : RunOracle) (ce0 : CmdEnv) (disk0 : List String),
      (∀ a b, b ≠ "" → p.join a b ≠ "") →
      ((runCmd p o ce0 disk0).ce.chrootDir =
          p.join ce0.workDir PATHNAME_ROOTFS ∧
       (runCmd p o ce0 disk0).ce.fakerootSaveFile =
          p.join ce0.workDir PATHNAME_FAKEROOTSAVE ∧
       (runCmd p o ce0 disk0).ce.chrootDir ≠ "" ∧
       (runCmd p o ce0 disk0).ce.fakerootSaveFile ≠ "" ∧
       (runCmd p o ce0 disk0).err ≠ some (.argsErr .chrootUndefined)) ∧
      (∀ (ce' r : CmdEnv), ce'.fakerootSaveFile ≠ "" →
        hasFlag ce'.flag Efakeroot = true → makeArgs p ce' = .ok r →
        ∃ fr pre post, p.lookPath "fakeroot" = some fr ∧
          r.args = pre ++ fr :: "-s" :: ce'.fakerootSaveFile :: "-i" ::
            ce'.fakerootSaveFile :: "--" :: post) := by
  intro p o ce0 disk0 hj
  have hroot : (runCmdInit p ce0).chrootDir ≠ "" :=
    hj ce0.workDir PATHNAME_ROOTFS (by decide)
  have hsave : (runCmdInit p ce0).fakerootSaveFile ≠ "" :=
    hj ce0.workDir PATHNAME_FAKEROOTSAVE (by decide)
  have hcore := runCmd_core p o ce0 disk0
  constructor
  · refine ⟨hcore.2.2.1, hcore.2.2.2, ?_, ?_, ?_⟩
    · rw [hcore.2.2.1]
      exact hroot
    · rw [hcore.2.2.2]
      exact hsave
    · cases hmv : makeVolatileDirs o (runCmdInit p ce0) disk0 with
      | mk fst rest =>
        obtain ⟨ce1, disk1⟩ := rest
        cases fst with
        | some e =>
          rw [runCmd_of_dirs_err p o ce0 disk0 e ce1 disk1 hmv]
          intro hcontra
          have he := Option.some.inj hcontra
          rcases makeVolatileDirs_err_shape o (runCmdInit p ce0) disk0 e ce1
            disk1 hmv with h | h <;> rw [h] at he <;> exact RunErr.noConfusion he
        | none =>
          rw [runCmd_of_dirs_ok p o ce0 disk0 ce1 disk1 hmv]
          have hmeta := (makeVolatileDirs_meta o (runCmdInit p ce0) disk0).1
          rw [hmv] at hmeta
          have hne1 : ce1.chrootDir ≠ "" := by
            rw [hmeta.2.2.1]
            exact hroot
          exact runCmdBody_err_not_config p o ce1 hne1
  · intro ce' r hsf hfr hok
    unfold makeArgs at hok
    split at hok
    · exact Except.noConfusion hok
    · rename_i ce1 h1
      split at hok
      · exact Except.noConfusion hok
      · rename_i ce2 h2
        have hcore1 := chrootStage_core p ce' ce1 h1
        have hfr1 : hasFlag ce1.flag Efakeroot = true := by
          rw [hcore1.1.1]
          exact hfr
        have hsf1 : ce1.fakerootSaveFile ≠ "" := by
          rw [hcore1.1.2.2.2]
          exact hsf
        obtain ⟨fp, hfp, hargs2⟩ := fakerootStage_ok_save_shape p ce1 ce2 hfr1
          hsf1 h2
        rcases fakechrootStage_ok_args p ce2 r hok with hsame | ⟨fcp, hfcp⟩
        · refine ⟨fp, [], ce1.args, hfp, ?_⟩
          rw [hsame, hargs2, hcore1.1.2.2.2]
          simp
        · refine ⟨fp, [fcp, "--environment", "debootstrap", "--"], ce1.args,
            hfp, ?_⟩
          rw [hfcp, hargs2, hcore1.1.2.2.2]
          simp

/-- C10 witness: concrete run — the chroot root field is the joined
`workDir/rootfs` and the configuration-error branch is not taken. -/
theorem C10_chrootSetup_witness :
    (runCmd samplePaths w6oracle w6req []).ce.chrootDir = "/w/rootfs" ∧
    (runCmd samplePaths w6oracle w6req []).err ≠
      some (.argsErr .chrootUndefined) := by
  have h := C10_chrootSetup samplePaths w6oracle w6req [] samplePaths_join_ne
  exact ⟨h.1.1, h.1.2.2.2.2⟩

theorem volatileEnv_chroot (p : Paths) (ce : CmdEnv) (r : String)
    (h1 : hasFlag ce.flag Echroot = true) :
    volatileEnv p ce r =
      [("PATH", "/usr/sbin:/usr/bin:/sbin:/bin"), ("VTEMP", p.join "/" r)] := by
  unfold volatileEnv
  rw [if_pos h1]

theorem volatileEnv_nonchroot (p : Paths) (ce : CmdEnv) (r : String)
    (h1 : hasFlag ce.flag Echroot = false) :
    volatileEnv p ce r =
      [("PATH", p.join ce.workDir PATHNAME_BIN ++ ":" ++
          "/usr/sbin:/usr/bin:/sbin:/bin"),
       ("VTEMP", ce.vTmpDir)] ++
      (dirSkeleton.filter (fun d => d.envvar != "")).map
        (fun d => (d.envvar, p.join ce.workDir d.pathname)) := by
  unfold volatileEnv
  rw [if_neg (by rw [h1]; simp)]

theorem setEnv_chroot_eq (p : Paths) (ce : CmdEnv)
    (persist : List (String × String)) (r : String)
    (h1 : hasFlag ce.flag Echroot = true)
    (hr : p.rel (p.join ce.workDir PATHNAME_ROOTFS) ce.vTmpDir = some r) :
    setEnv p ce persist = .ok { ce with
      env := ce.env ++ renderEnv (volatileEnv p ce r) ++ renderEnv persist ++
        ["RIB_EXEC_ENV=1"] } := by
  unfold setEnv
  rw [if_pos h1]
  simp only [hr]

theorem setEnv_chroot_fail (p : Paths) (ce : CmdEnv)
    (persist : List (String × String))
    (h1 : hasFlag ce.flag Echroot = true)
    (hr : p.rel (p.join ce.workDir PATHNAME_ROOTFS) ce.vTmpDir = none) :
    setEnv p ce persist = .error .relFail := by
  unfold setEnv
  rw [if_pos h1]
  simp only [hr]

theorem setEnv_nonchroot_eq (p : Paths) (ce : CmdEnv)
    (persist : List (String × String))
    (h1 : hasFlag ce.flag Echroot = false) :
    setEnv p ce persist = .ok { ce with
      env := ce.env ++ renderEnv (volatileEnv p ce "") ++ renderEnv persist ++
        ["RIB_EXEC_ENV=1"] } := by
  unfold setEnv
  rw [if_neg (by rw [h1]; simp)]

/-- C5: the environment list built by `SetEnv` is the request's existing
list followed by the mode-specific block, then every entry of the
persistent store rendered `NAME=value` (so each persistent entry appears
after any mode-specific entry of the same name), and ends with
`RIB_EXEC_ENV=1`.  In chroot mode `PATH` is exactly
`/usr/sbin:/usr/bin:/sbin:/bin` and `VTEMP` is the temp directory's path
relative to the chroot root rooted at `/` (failure of the relative-path
computation aborts with the resolution error); in non-chroot mode `PATH`
is the local bin directory prepended to the standard system path, `VTEMP`
is the temp directory's path, and one variable per skeleton entry with an
associated name is added. -/
theorem C5_setEnv :
    (∀ (p : Paths) (ce : CmdEnv) (persist : List (String × String)) (r : String),
      hasFlag ce.flag Echroot = true →
      p.rel (p.join ce.workDir PATHNAME_ROOTFS) ce.vTmpDir = some r →
      ∃ ce', setEnv p ce persist = .ok ce' ∧
        ce'.env = ce.env ++
          ["PATH=/usr/sbin:/usr/bin:/sbin:/bin",
           "VTEMP=" ++ p.join "/" r] ++
          renderEnv persist ++ ["RIB_EXEC_ENV=1"] ∧
        (∀ nv ∈ persist, nv.1 ++ "=" ++ nv.2 ∈ ce'.env) ∧
        ce'.env.getLast? = some "RIB_EXEC_ENV=1") ∧
    (∀ (p : Paths) (ce : CmdEnv) (persist : List (String × String)),
      hasFlag ce.flag Echroot = false →
      ∃ ce', setEnv p ce persist = .ok ce' ∧
        ce'.env = ce.env ++
          (("PATH=" ++ (p.join ce.workDir PATHNAME_BIN ++ ":" ++
              "/usr/sbin:/usr/bin:/sbin:/bin")) ::
           ("VTEMP=" ++ ce.vTmpDir) ::
           renderEnv ((dirSkeleton.filter (fun d => d.envvar != "")).map
             (fun d => (d.envvar, p.join ce.workDir d.pathname)))) ++
          renderEnv persist ++ ["RIB_EXEC_ENV=1"] ∧
        (∀ nv ∈ persist, nv.1 ++ "=" ++ nv.2 ∈ ce'.env) ∧
        ce'.env.getLast? = some "RIB_EXEC_ENV=1") ∧
    (∀ (p : Paths) (ce : CmdEnv) (persist : List (String × String)),
      hasFlag ce.flag Echroot = true →
      p.rel (p.join ce.workDir PATHNAME_ROOTFS) ce.vTmpDir = none →
      setEnv p ce persist = .error .relFail) := by
  have hmem : ∀ (pre mid : List String) (persist : List (String × String))
      (nv : String × String), nv ∈ persist →
      nv.1 ++ "=" ++ nv.2 ∈ pre ++ mid ++ renderEnv persist ++ ["RIB_EXEC_ENV=1"] := by
    intro pre mid persist nv hnv
    have hin : nv.1 ++ "=" ++ nv.2 ∈ renderEnv persist :=
      List.mem_map_of_mem (fun e => e.1 ++ "=" ++ e.2) hnv
    simp only [List.mem_append]
    exact Or.inl (Or.inr hin)
  refine ⟨?_, ?_, ?_⟩
  · intro p ce persist r h1 hr
    refine ⟨_, setEnv_chroot_eq p ce persist r h1 hr, ?_, ?_, ?_⟩
    · show ce.env ++ renderEnv (volatileEnv p ce r) ++ renderEnv persist ++
        ["RIB_EXEC_ENV=1"] = _
      rw [volatileEnv_chroot p ce r h1]
      rfl
    · intro nv hnv
      show nv.1 ++ "=" ++ nv.2 ∈ ce.env ++ renderEnv (volatileEnv p ce r) ++
        renderEnv persist ++ ["RIB_EXEC_ENV=1"]
      exact hmem _ _ persist nv hnv
    · show (ce.env ++ renderEnv (volatileEnv p ce r) ++ renderEnv persist ++
        ["RIB_EXEC_ENV=1"]).getLast? = some "RIB_EXEC_ENV=1"
      exact List.getLast?_concat _
  · intro p ce persist h1
    refine ⟨_, setEnv_nonchroot_eq p ce persist h1, ?_, ?_, ?_⟩
    · show ce.env ++ renderEnv (volatileEnv p ce "") ++ renderEnv persist ++
        ["RIB_EXEC_ENV=1"] = _
      rw [volatileEnv_nonchroot p ce "" h1]
      rfl
    · intro nv hnv
      show nv.1 ++ "=" ++ nv.2 ∈ ce.env ++ renderEnv (volatileEnv p ce "") ++
        renderEnv persist ++ ["RIB_EXEC_ENV=1"]
      exact hmem _ _ persist nv hnv
    · show (ce.env ++ renderEnv (volatileEnv p ce "") ++ renderEnv persist ++
        ["RIB_EXEC_ENV=1"]).getLast? = some "RIB_EXEC_ENV=1"
      exact List.getLast?_concat _
  · intro p ce persist h1 hr
    exact setEnv_chroot_fail p ce persist h1 hr

def c5req : CmdEnv :=
  { flag := Echroot ||| Efakeroot ||| Efakechroot, workDir := "/w",
    vTmpDir := "/w/rootfs/.volatile.1" }

/-- C5 witness: a chroot-mode environment at concrete values — persistent
entry present, sentinel last. -/
theorem C5_setEnv_witness :
    ∃ ce', setEnv samplePaths c5req [("FOO", "bar")] = .ok ce' ∧
      "FOO=bar" ∈ ce'.env ∧
      ce'.env.getLast? = some "RIB_EXEC_ENV=1" := by
  obtain ⟨ce', hok, henv, hm, hlast⟩ :=
    C5_setEnv.1 samplePaths c5req [("FOO", "bar")] "/w/rootfs/.volatile.1"
      (by decide) rfl
  exact ⟨ce', hok, hm ("FOO", "bar") (by simp), hlast⟩

end Rib
